import Mathlib

/-!
Shallow embedding of the ch8-rs CHIP-8/SCHIP/XO-CHIP core (src/cpu.rs) and
verification of its specification claims.

Modelling conventions:
* `u8`/`u16` values are `Nat` with explicit `% 256` / `% 65536` where the Rust
  code can wrap (release-profile wrapping semantics), and `usize` slice-bound
  arithmetic wraps `% 2^64` likewise; where the resulting slice or array
  access panics the embedding returns an explicit `Outcome.panicked`.
* Wall-clock instants and `f64` second counts are idealized as exact rationals;
  the `as u64` float-to-int cast of a non-negative value is `Int.toNat ∘ Int.floor`.
* Rust arrays indexed by construction-bounded values (`v`, `memory`, `stack`,
  `repl`, key state) are total functions `Nat → Nat` / `Nat → Bool`; display
  plane byte storage is a `List Nat` because the scroll operations rotate it.
-/

namespace Ch8

/-! ## Bit-level helper lemmas -/

theorem testBit_ge {w n i : Nat} (h : w < 2 ^ n) (hi : n ≤ i) : w.testBit i = false :=
  Nat.testBit_lt_two_pow (lt_of_lt_of_le h (Nat.pow_le_pow_right (by omega) hi))

theorem hilo_eq {h l : Nat} (hl : l < 256) : (h <<< 8) ||| l = 256 * h + l := by
  apply Nat.eq_of_testBit_eq
  intro i
  rcases Nat.lt_or_ge i 8 with hi | hi
  · have e1 : (256 * h + l).testBit i = ((256 * h + l) % 2 ^ 8).testBit i := by
      rw [Nat.testBit_mod_two_pow]
      simp [hi]
    have h256 : (256 * h + l) % 2 ^ 8 = l := by
      have e : (2 : Nat) ^ 8 = 256 := by norm_num
      rw [e]
      omega
    have hni : ¬ 8 ≤ i := by omega
    rw [e1, h256]
    simp [Nat.testBit_or, Nat.testBit_shiftLeft, hni]
  · have hdiv : (256 * h + l) >>> 8 = h := by
      rw [Nat.shiftRight_eq_div_pow]
      norm_num
      omega
    have e1 : (256 * h + l).testBit i = h.testBit (i - 8) := by
      conv_lhs => rw [show i = 8 + (i - 8) by omega]
      rw [← Nat.testBit_shiftRight, hdiv]
    rw [e1]
    simp [Nat.testBit_or, Nat.testBit_shiftLeft, hi, testBit_ge (show l < 2 ^ 8 from hl) hi]

/-! ## Timer (src/cpu.rs lines 11-59)

The Rust `Timer` stores `start`, `last_update` (`Instant`s), `freq_hz`,
`multi` (`f64`s) and the raw register byte `_reg_value`.  Instants are
idealized as rational numbers of seconds; `Instant::now()` becomes an explicit
`now` argument to the operations that sample the clock. -/

structure Timer where
  start : ℚ
  lastUpdate : ℚ
  freqHz : ℚ
  multi : ℚ
  regValue : Nat
deriving DecidableEq

def Timer.new : Timer := ⟨0, 0, 60, 1, 0⟩

/-- `Timer::set_reg` (cpu.rs:31-34): records the set instant and raw value. -/
def Timer.set_reg (t : Timer) (val : Nat) (now : ℚ) : Timer :=
  { t with lastUpdate := now, regValue := val }

/-- Number of whole ticks since `t.start` at instant `q`:
`(q - start).as_secs_f64() * freq_hz * multi` cast `as u64`. -/
def Timer.steps (t : Timer) (q : ℚ) : Nat :=
  (⌊(q - t.start) * t.freqHz * t.multi⌋).toNat

/-- `Timer::get_reg` (cpu.rs:36-51): decayed register value at instant `now`.
`diff` is the truncated tick count at `now` minus the truncated tick count at
`last_update`, both anchored at `start`; the result clamps at zero. -/
def Timer.get_reg (t : Timer) (now : ℚ) : Nat :=
  if t.regValue = 0 then 0
  else
    let diff := t.steps now - t.steps t.lastUpdate
    if t.regValue < diff then 0 else t.regValue - diff

/-- `Timer::time_left` (cpu.rs:53-58): `None` iff the raw stored byte is zero,
otherwise the full duration `_reg_value / freq_hz` (in seconds). -/
def Timer.time_left (t : Timer) : Option ℚ :=
  if t.regValue = 0 then none
  else some ((t.regValue : ℚ) / t.freqHz)

/-- The decayed-value formula in the words of claim C3: the set value minus the
integer truncation of (elapsed wall-clock time since the set) × frequency ×
multiplier, clamped at zero.  Stated for comparison against `Timer.get_reg`,
which instead subtracts two tick counts each truncated from `start`. -/
def specGetReg (t : Timer) (now : ℚ) : Nat :=
  if t.regValue = 0 then 0
  else
    let elapsedTicks := (⌊(now - t.lastUpdate) * t.freqHz * t.multi⌋).toNat
    if t.regValue < elapsedTicks then 0 else t.regValue - elapsedTicks

/-- Concrete timer used to separate `Timer.get_reg` from the claim C3 formula:
value 10 set at instant 1/2 (timer started at 0), frequency 1 Hz, multiplier 1. -/
def timerC3 : Timer := ⟨0, 1/2, 1, 1, 10⟩

/-- Concrete timer for claim C4: value 60 set at instant 0, 60 Hz.  At instant 2
the countdown has fully decayed. -/
def timerC4 : Timer := ⟨0, 0, 60, 1, 60⟩

/-- C3, counterexample: `Timer::get_reg` does not compute "set value minus the
integer-truncated product of elapsed time, frequency and multiplier".  For a
1 Hz timer started at 0 whose value 10 was set at instant 1/2 and read at
instant 6/5, the elapsed-product formula truncates 0.7 to 0 ticks and yields
10, but the code subtracts `floor(1.2) - floor(0.5) = 1` tick and yields 9. -/
theorem C3_counterexample :
    Timer.get_reg timerC3 (6 / 5) = 9 ∧ specGetReg timerC3 (6 / 5) = 10 := by
  have h1 : (⌊(6 / 5 - 0 : ℚ) * 1 * 1⌋ : ℤ) = 1 := by norm_num
  have h2 : (⌊(1 / 2 - 0 : ℚ) * 1 * 1⌋ : ℤ) = 0 := by norm_num
  have h3 : (⌊(6 / 5 - 1 / 2 : ℚ) * 1 * 1⌋ : ℤ) = 0 := by norm_num
  constructor
  · show Timer.get_reg ⟨0, 1 / 2, 1, 1, 10⟩ (6 / 5) = 9
    unfold Timer.get_reg Timer.steps
    norm_num [h1, h2]
  · show specGetReg ⟨0, 1 / 2, 1, 1, 10⟩ (6 / 5) = 10
    unfold specGetReg
    norm_num [h3]

/-- C3 (amended): after `set_reg v` at instant `now`, `get_reg` at a later
instant returns `v` minus the difference of the truncated tick counts at the
read and set instants (each anchored at the timer's `start`), clamped at zero;
the result never exceeds `v`, and two reads with no intervening set are
monotonically non-increasing. -/
theorem get_reg_set_eval (t : Timer) (v : Nat) (now q : ℚ) (hv : v ≠ 0) :
    Timer.get_reg (Timer.set_reg t v now) q
      = v - min v (Timer.steps t q - Timer.steps t now) := by
  unfold Timer.get_reg Timer.set_reg Timer.steps
  dsimp only
  rw [if_neg hv]
  split <;> omega

theorem steps_mono (t : Timer) (hfm : 0 ≤ t.freqHz * t.multi) {q1 q2 : ℚ}
    (h : q1 ≤ q2) : Timer.steps t q1 ≤ Timer.steps t q2 := by
  unfold Timer.steps
  have hmul : (q1 - t.start) * t.freqHz * t.multi
      ≤ (q2 - t.start) * t.freqHz * t.multi := by
    rw [mul_assoc, mul_assoc]
    apply mul_le_mul_of_nonneg_right _ hfm
    linarith
  exact Int.toNat_le_toNat (Int.floor_le_floor hmul)

theorem C3_timer_decay (t : Timer) (v : Nat) (now now1 now2 : ℚ)
    (hv : v ≠ 0) (hfm : 0 ≤ t.freqHz * t.multi) (h12 : now1 ≤ now2) :
    (Timer.get_reg (Timer.set_reg t v now) now1
        = v - min v (Timer.steps t now1 - Timer.steps t now)
      ∧ Timer.get_reg (Timer.set_reg t v now) now1 ≤ v)
    ∧ Timer.get_reg (Timer.set_reg t v now) now2
        ≤ Timer.get_reg (Timer.set_reg t v now) now1 := by
  have hmono : Timer.steps t now1 ≤ Timer.steps t now2 := steps_mono t hfm h12
  rw [get_reg_set_eval t v now now1 hv, get_reg_set_eval t v now now2 hv]
  omega

/-- C3 witness: a 60 Hz, multiplier-1 timer set to 60 at instant 0 reads 30 at
instant 1/2, and the read at instant 1 is no larger. -/
theorem C3_witness :
    Timer.get_reg (Timer.set_reg Timer.new 60 0) (1 / 2) = 30
      ∧ Timer.get_reg (Timer.set_reg Timer.new 60 0) 1 ≤ 30 := by
  have h := C3_timer_decay Timer.new 60 0 (1 / 2) 1 (by decide)
    (by norm_num [Timer.new]) (by norm_num)
  have hs0 : Timer.steps Timer.new 0 = 0 := by
    unfold Timer.steps Timer.new
    norm_num
  have hs2 : Timer.steps Timer.new (1 / 2) = 30 := by
    unfold Timer.steps Timer.new
    norm_num
    decide
  have e : Timer.get_reg (Timer.set_reg Timer.new 60 0) (1 / 2) = 30 := by
    rw [h.1.1, hs2, hs0]
    decide
  exact ⟨e, e ▸ h.2⟩

/-- C4, counterexample: `Timer::time_left` is not `None` when the register has
fully decayed to rest: for a 60 Hz timer set to 60 at instant 0 and probed at
instant 2 the decayed value is 0, yet `time_left` returns `Some 1` — the full
duration of the last set value, not the remaining (zero) countdown. -/
theorem C4_counterexample :
    Timer.get_reg timerC4 2 = 0 ∧ Timer.time_left timerC4 = some 1 := by
  constructor
  · show Timer.get_reg ⟨0, 0, 60, 1, 60⟩ 2 = 0
    have h1 : (⌊(2 - 0 : ℚ) * 60 * 1⌋ : ℤ) = 120 := by norm_num
    have h2 : (⌊(0 - 0 : ℚ) * 60 * 1⌋ : ℤ) = 0 := by norm_num
    unfold Timer.get_reg Timer.steps
    norm_num [h1, h2]
  · norm_num [Timer.time_left, timerC4]

/-- C4 (amended): `Timer::time_left` returns `None` exactly when the *stored*
last-set register byte is 0 (not when the decayed current value reaches 0);
otherwise it returns the full duration `stored value / freq_hz` of the last
set value, regardless of how much of the countdown has already elapsed and
ignoring the speed multiplier. -/
theorem C4_time_left (t : Timer) :
    (Timer.time_left t = none ↔ t.regValue = 0)
    ∧ (t.regValue ≠ 0 →
        Timer.time_left t = some ((t.regValue : ℚ) / t.freqHz)) := by
  unfold Timer.time_left
  constructor
  · split <;> simp_all
  · intro hv
    simp [hv]

/-- C4 witness: instantiation of the amended claim at the concrete decayed
timer `timerC4`. -/
theorem C4_witness : Timer.time_left timerC4 = some ((60 : ℚ) / 60) := by
  exact (C4_time_left timerC4).2 (by decide)

/-! ## Plane (src/cpu.rs lines 82-194)

`Plane::new(height, width)` allocates `vec![0u8; height * width]` — note:
`height * width` bytes, although the bitmap only ever addresses the first
`height * width / 8` of them.  The scroll operations nevertheless act on the
whole vector, so the embedding keeps the full allocation. -/

structure Plane where
  cells : List Nat
  width : Nat
  height : Nat
deriving DecidableEq

def Plane.new (height width : Nat) : Plane :=
  ⟨List.replicate (height * width) 0, width, height⟩

/-- Well-formedness: the invariants every `Plane` the Rust program builds
satisfies (dimensions from `Display::new`/`set_extended`, byte-valued cells). -/
def Plane.wf (p : Plane) : Prop :=
  p.cells.length = p.height * p.width ∧ p.width % 8 = 0 ∧ 16 ≤ p.width
    ∧ p.width < 256 ∧ 0 < p.height ∧ p.height < 256 ∧ ∀ b ∈ p.cells, b < 256

/-- `cells.rotate_right(k)` (Rust `slice::rotate_right`, defined for `k ≤ len`). -/
def listRotRight (l : List Nat) (k : Nat) : List Nat :=
  l.drop (l.length - k) ++ l.take (l.length - k)

/-- `cells.rotate_left(k)` (Rust `slice::rotate_left`, defined for `k ≤ len`). -/
def listRotLeft (l : List Nat) (k : Nat) : List Nat :=
  l.drop k ++ l.take k

/-- `for pixel_byte in cells[0..k] { *pixel_byte = 0 }` (defined for `k ≤ len`). -/
def zeroPrefix (k : Nat) (l : List Nat) : List Nat :=
  List.replicate (min k l.length) 0 ++ l.drop k

/-- `Plane::scroll_down` (cpu.rs:99-104): rotate the byte vector right by
`n * width / 8`, then zero the first `n * width / 8` bytes. -/
def Plane.scroll_down (p : Plane) (n : Nat) : Plane :=
  { p with cells := zeroPrefix (n * p.width / 8) (listRotRight p.cells (n * p.width / 8)) }

/-- `Plane::scroll_up` (cpu.rs:106-111): zero the first `n * width / 8` bytes,
then rotate the byte vector left by `n * width / 8`. -/
def Plane.scroll_up (p : Plane) (n : Nat) : Plane :=
  { p with cells := listRotLeft (zeroPrefix (n * p.width / 8) p.cells) (n * p.width / 8) }

/-- The loop body of `Plane::scroll_right` (cpu.rs:113-120): forward pass over
the byte vector carrying the low nibble of each byte into the next byte. -/
def srGo : Nat → List Nat → List Nat
  | _, [] => []
  | carry, v :: rest => ((v >>> 4) ||| (carry <<< 4)) :: srGo (v &&& 0xF) rest

def Plane.scroll_right (p : Plane) : Plane :=
  { p with cells := srGo 0 p.cells }

/-- The loop of `Plane::scroll_left` (cpu.rs:122-129): reverse pass carrying
the high nibble of each byte into the previous byte; element `i` becomes
`(old[i] << 4) | ((old[i+1] & 0xF0) >> 4)` with `old[len] = 0`. -/
def slGo : List Nat → List Nat
  | [] => []
  | [v] => [(v <<< 4) % 256]
  | v :: w :: rest => (((v <<< 4) % 256) ||| ((w &&& 0xF0) >>> 4)) :: slGo (w :: rest)

def Plane.scroll_left (p : Plane) : Plane :=
  { p with cells := slGo p.cells }

/-- `Plane::clear` (cpu.rs:131-137): zeroes the addressed `height * width / 8`
prefix of the byte vector (the loop only visits those indices). -/
def Plane.clear (p : Plane) : Plane :=
  { p with cells := zeroPrefix (p.height * (p.width / 8)) p.cells }

/-- 64×32 plane whose only set pixels are the rightmost four of row 0
(low nibble of byte 7, the last byte of row 0). -/
def planeC6 : Plane :=
  ⟨List.replicate 7 0 ++ 0x0F :: List.replicate 2040 0, 64, 32⟩

/-- C6, failing input: scrolling `planeC6` right by 4 pixels must zero-fill the
vacated left 4-pixel column of *every* row, but the loop carries the low
nibble of row 0's last byte into row 1's first byte: byte 8 (row 1, leftmost
8 pixels) ends as `0xF0` although it was `0x00` before the scroll. -/
theorem C6_scroll_right_row_leak :
    planeC6.cells.getD 8 0 = 0x00
      ∧ (Plane.scroll_right planeC6).cells.getD 8 0 = 0xF0 := by
  constructor <;> decide

/-! Nibble-level facts used for the scroll-left/scroll-right round trip,
established by exhaustive evaluation over the byte domain. -/

set_option maxRecDepth 100000 in
theorem nibble0 : ∀ v < 256, ((v <<< 4) % 256) >>> 4 = v &&& 0xF := by decide

set_option maxRecDepth 100000 in
theorem nibble1 : ∀ v < 256, ∀ b < 16,
    (((v <<< 4) % 256) ||| b) >>> 4 = v &&& 0xF := by decide

set_option maxRecDepth 100000 in
theorem nibble2 : ∀ v < 256, ∀ b < 16,
    (((v <<< 4) % 256) ||| b) &&& 0xF = b := by decide

set_option maxRecDepth 100000 in
theorem nibble3 : ∀ w < 256,
    (w &&& 0xF) ||| (((w &&& 0xF0) >>> 4) <<< 4) = w := by decide

theorem hi_nibble_lt (w : Nat) : (w &&& 0xF0) >>> 4 < 16 := by
  have h : w &&& 0xF0 ≤ 0xF0 := Nat.and_le_right
  rw [Nat.shiftRight_eq_div_pow]
  omega

/-- Scrolling right after scrolling left restores every byte except that the
incoming carry `c` replaces the high nibble of the head byte. -/
theorem srGo_slGo (l : List Nat) : ∀ v c, v < 256 → (∀ b ∈ l, b < 256) → c < 16 →
    srGo c (slGo (v :: l)) = (((v &&& 0xF) ||| (c <<< 4)) :: l) := by
  induction l with
  | nil =>
    intro v c hv _ hc
    show (((v <<< 4) % 256) >>> 4 ||| c <<< 4) :: srGo _ [] = _
    rw [nibble0 v hv]
    rfl
  | cons w rest ih =>
    intro v c hv hl hc
    have hw : w < 256 := hl w (by simp)
    have hrest : ∀ b ∈ rest, b < 256 := fun b hb => hl b (by simp [hb])
    show ((((v <<< 4) % 256) ||| ((w &&& 0xF0) >>> 4)) >>> 4 ||| c <<< 4)
        :: srGo ((((v <<< 4) % 256) ||| ((w &&& 0xF0) >>> 4)) &&& 0xF) (slGo (w :: rest)) = _
    rw [nibble1 v hv _ (hi_nibble_lt w), nibble2 v hv _ (hi_nibble_lt w),
      ih w ((w &&& 0xF0) >>> 4) hw hrest (hi_nibble_lt w), nibble3 w hw]

/-- The planes-level byte list after a down-by-`k`-bytes then up-by-`k`-bytes
round trip: everything except the last `k` bytes is restored; those are zeroed. -/
theorem drop_len_append {n : Nat} (l1 l2 : List Nat) (h : l1.length = n) :
    (l1 ++ l2).drop n = l2 := by
  subst h
  exact List.drop_left l1 l2

theorem take_len_append {n : Nat} (l1 l2 : List Nat) (h : l1.length = n) :
    (l1 ++ l2).take n = l1 := by
  subst h
  exact List.take_left l1 l2

theorem roundtrip_cells (l : List Nat) (k : Nat) (hk : k ≤ l.length) :
    listRotLeft (zeroPrefix k (zeroPrefix k (listRotRight l k))) k
      = l.take (l.length - k) ++ List.replicate k 0 := by
  have hdl : (l.drop (l.length - k)).length = k := by
    rw [List.length_drop]
    omega
  have hrlen : (listRotRight l k).length = l.length := by
    unfold listRotRight
    rw [List.length_append, List.length_drop, List.length_take]
    omega
  have hzp1 : zeroPrefix k (listRotRight l k)
      = List.replicate k 0 ++ l.take (l.length - k) := by
    unfold zeroPrefix
    rw [hrlen, Nat.min_eq_left hk]
    congr 1
    exact drop_len_append _ _ hdl
  rw [hzp1]
  have htlen : (l.take (l.length - k)).length = l.length - k := by
    rw [List.length_take]
    omega
  have hzp2 : zeroPrefix k (List.replicate k 0 ++ l.take (l.length - k))
      = List.replicate k 0 ++ l.take (l.length - k) := by
    unfold zeroPrefix
    rw [drop_len_append _ _ (List.length_replicate k 0)]
    congr 2
    rw [List.length_append, List.length_replicate, htlen]
    omega
  rw [hzp2]
  unfold listRotLeft
  rw [drop_len_append _ _ (List.length_replicate k 0),
    take_len_append _ _ (List.length_replicate k 0)]

/-- Clears the high nibble of the first byte of the byte vector, leaving
everything else untouched. -/
def clearHeadNibble : List Nat → List Nat
  | [] => []
  | c :: r => (c &&& 0x0F) :: r

/-- Plane used to refute claim C7 as stated: its top-left 4 pixels are set. -/
def planeC7 : Plane := ⟨0xF0 :: List.replicate 31 0, 16, 2⟩

/-- C7, counterexample: scrolling left 4 pixels and then right 4 pixels does
not reproduce the original bitmap — the first 4 pixels of row 0 (high nibble
of byte 0) fall off the front of the byte stream during the left scroll and
come back zero-filled. -/
theorem C7_counterexample :
    Plane.scroll_right (Plane.scroll_left planeC7) ≠ planeC7 := by
  decide

/-- C7 (amended): for `n ≤ height`, scrolling down `n` rows and then up `n`
rows restores every byte of the plane buffer except the last `n·width/8`
bytes of the (8×-overallocated) vector, which are zeroed — in particular every
displayed pixel is restored, because the scrolled-off rows are parked in the
vector's unaddressed slack; and scrolling left 4 pixels then right 4 pixels
restores every byte except the high nibble of byte 0 (the first 4 pixels of
row 0), which is cleared — interior rows keep their leftmost pixels because
the nibble carry leaks across row boundaries in both directions. -/
theorem C7_scroll_roundtrip (p : Plane) (n : Nat) (hwf : p.wf) (hn : n ≤ p.height) :
    Plane.scroll_up (Plane.scroll_down p n) n
        = { p with cells := p.cells.take (p.cells.length - n * p.width / 8)
              ++ List.replicate (n * p.width / 8) 0 }
    ∧ Plane.scroll_right (Plane.scroll_left p)
        = { p with cells := clearHeadNibble p.cells } := by
  obtain ⟨hlen, hw8, hwlo, hwhi, hh, hh256, hbytes⟩ := hwf
  constructor
  · have hk : n * p.width / 8 ≤ p.cells.length := by
      rw [hlen]
      calc n * p.width / 8 ≤ p.height * p.width / 8 :=
            Nat.div_le_div_right (Nat.mul_le_mul_right _ hn)
        _ ≤ p.height * p.width := Nat.div_le_self _ _
    show Plane.mk _ _ _ = Plane.mk _ _ _
    congr 1
    exact roundtrip_cells p.cells (n * p.width / 8) hk
  · show Plane.mk (srGo 0 (slGo p.cells)) p.width p.height
        = Plane.mk (clearHeadNibble p.cells) p.width p.height
    congr 1
    cases hc : p.cells with
    | nil => rfl
    | cons v rest =>
      have hv : v < 256 := hbytes v (by rw [hc]; simp)
      have hrest : ∀ b ∈ rest, b < 256 := fun b hb => hbytes b (by rw [hc]; simp [hb])
      rw [srGo_slGo rest v 0 hv hrest (by omega)]
      show ((v &&& 0xF) ||| 0 <<< 4) :: rest = ((v &&& 0x0F) :: rest)
      rw [Nat.zero_shiftLeft, Nat.or_zero]

/-- C7 witness: instantiation of the amended round-trip claim on a concrete
16×2 plane with a nonzero byte in row 1. -/
def planeC7w : Plane := ⟨0x12 :: List.replicate 31 0x34, 16, 2⟩

theorem C7_witness :
    Plane.scroll_up (Plane.scroll_down planeC7w 1) 1
        = { planeC7w with cells := planeC7w.cells.take (planeC7w.cells.length - 1 * planeC7w.width / 8)
              ++ List.replicate (1 * planeC7w.width / 8) 0 }
    ∧ Plane.scroll_right (Plane.scroll_left planeC7w)
        = { planeC7w with cells := clearHeadNibble planeC7w.cells } :=
  C7_scroll_roundtrip planeC7w 1 (by constructor <;> decide) (by decide)

/-! ## Byte-window access into a plane row (cpu.rs:171-193)

`get_byte`/`set_byte` view 8 pixels starting at bit `x` of row `y` as one
byte; the window may straddle two storage bytes, and the second byte wraps
from the row's right edge back to its left edge.  The Rust code forms a
16-bit word from the two bytes; the u16 complement `!m` is modelled as
`0xFFFF ^^^ m`. -/

def Plane.get_byte (p : Plane) (x y : Nat) : Nat :=
  let offs_bytes := x / 8
  let offs_bits := x % 8
  let line_offs := y * p.width / 8
  let word := (p.cells.getD (line_offs + offs_bytes) 0) <<< 8
      ||| p.cells.getD (line_offs + (offs_bytes + 1) % (p.width / 8)) 0
  (word >>> (8 - offs_bits)) &&& 0xFF

def Plane.set_byte (p : Plane) (x y val : Nat) : Plane :=
  let offs_bytes := x / 8
  let offs_bits := x % 8
  let line_offs := y * p.width / 8
  let word0 := (p.cells.getD (line_offs + offs_bytes) 0) <<< 8
      ||| p.cells.getD (line_offs + (offs_bytes + 1) % (p.width / 8)) 0
  let word1 := word0 &&& (0xFFFF ^^^ (0xFF <<< (8 - offs_bits)))
  let word := word1 ||| (val <<< (8 - offs_bits))
  let cells1 := p.cells.set (line_offs + offs_bytes) ((word >>> 8) &&& 0xFF)
  let cells2 := cells1.set (line_offs + (offs_bytes + 1) % (p.width / 8)) (word &&& 0xFF)
  { p with cells := cells2 }

/-- Loop body of `Plane::write_sprite` (cpu.rs:143-152): row `i` of the sprite
is XORed into the byte window at `(x, (y+i) mod height)`; the collision flag
accumulates `cur_val & sprite[i] != 0`. -/
def writeSpriteGo (x y : Nat) : Plane → List Nat → Nat → Bool → Plane × Bool
  | p, [], _, coll => (p, coll)
  | p, s :: rest, i, coll =>
      let yr := (y + i) % p.height
      let cur := p.get_byte x yr
      writeSpriteGo x y (p.set_byte x yr (cur ^^^ s)) rest (i + 1)
        (coll || decide (cur &&& s ≠ 0))

/-- `Plane::write_sprite` (cpu.rs:139-154).  `x % self.width as u8` is
`x % (width % 256)` (u8 truncation of the width), likewise for `y`. -/
def Plane.write_sprite (p : Plane) (sprite : List Nat) (x y : Nat) : Plane × Bool :=
  writeSpriteGo (x % (p.width % 256)) (y % (p.height % 256)) p sprite 0 false

/-- `Plane::write_sprite16` (cpu.rs:156-169): de-interleave the 32 sprite
bytes into even-indexed (left) and odd-indexed (right) halves and draw them at
`x` and `x + 8`. -/
def Plane.write_sprite16 (p : Plane) (sprite : List Nat) (x y : Nat) : Plane × Bool :=
  let left := (List.range 16).map fun k => sprite.getD (2 * k) 0
  let right := (List.range 16).map fun k => sprite.getD (2 * k + 1) 0
  let r1 := p.write_sprite left x y
  let r2 := r1.1.write_sprite right ((x + 8) % 256) y
  (r2.1, r1.2 || r2.2)

/-! Word-level facts about the byte window, by bit extensionality. -/

theorem shiftRight_or_distrib (a b s : Nat) : (a ||| b) >>> s = (a >>> s) ||| (b >>> s) := by
  apply Nat.eq_of_testBit_eq
  intro i
  simp [Nat.testBit_or, Nat.testBit_shiftRight]

theorem mask_mid_window_zero {w s : Nat} (hs : s ≤ 8) :
    ((w &&& (0xFFFF ^^^ (0xFF <<< s))) >>> s) &&& 0xFF = 0 := by
  apply Nat.eq_of_testBit_eq
  intro i
  simp only [Nat.testBit_and, Nat.testBit_shiftRight, Nat.testBit_xor, Nat.testBit_shiftLeft,
    Nat.zero_testBit, show (0xFF : Nat) = 2 ^ 8 - 1 from rfl,
    show (0xFFFF : Nat) = 2 ^ 16 - 1 from rfl, Nat.testBit_two_pow_sub_one]
  rcases Nat.lt_or_ge i 8 with hi | hi
  · have h1 : s + i < 16 := by omega
    have h2 : s ≤ s + i := by omega
    have h3 : s + i - s < 8 := by omega
    simp [h1, h2, h3]
  · have h1 : ¬ i < 8 := by omega
    simp [h1]

theorem shiftLeft_and_mask_zero {v s : Nat} (hv : v < 256) (hs : s ≤ 8) :
    (v <<< s) &&& (0xFFFF ^^^ (0xFF <<< s)) = 0 := by
  apply Nat.eq_of_testBit_eq
  intro i
  simp only [Nat.testBit_and, Nat.testBit_xor, Nat.testBit_shiftLeft, Nat.zero_testBit,
    show (0xFF : Nat) = 2 ^ 8 - 1 from rfl, show (0xFFFF : Nat) = 2 ^ 16 - 1 from rfl,
    Nat.testBit_two_pow_sub_one]
  rcases Nat.lt_or_ge i s with hi | hi
  · have h1 : ¬ s ≤ i := by omega
    simp [h1]
  · rcases Nat.lt_or_ge i (s + 8) with hi8 | hi8
    · have h1 : s ≤ i := hi
      have h2 : i < 16 := by omega
      have h3 : i - s < 8 := by omega
      simp [h1, h2, h3]
    · have h1 : (i - s) ≥ 8 := by omega
      have h2 : v.testBit (i - s) = false := testBit_ge (show v < 2 ^ 8 from hv) h1
      simp [h2]

theorem word_extract_insert {w v s : Nat} (hv : v < 256) (hs : s ≤ 8) :
    (((w &&& (0xFFFF ^^^ (0xFF <<< s))) ||| (v <<< s)) >>> s) &&& 0xFF = v := by
  rw [shiftRight_or_distrib, Nat.and_distrib_right, mask_mid_window_zero hs,
    Nat.shiftLeft_shiftRight, Nat.zero_or]
  simpa using Nat.and_pow_two_sub_one_of_lt_two_pow (show v < 2 ^ 8 from hv)

theorem word_insert_insert {w v1 v2 s : Nat} (hv1 : v1 < 256) (hs : s ≤ 8) :
    (((w &&& (0xFFFF ^^^ (0xFF <<< s))) ||| (v1 <<< s)) &&& (0xFFFF ^^^ (0xFF <<< s)))
        ||| (v2 <<< s)
      = (w &&& (0xFFFF ^^^ (0xFF <<< s))) ||| (v2 <<< s) := by
  rw [Nat.and_distrib_right, Nat.and_assoc, Nat.and_self, shiftLeft_and_mask_zero hv1 hs,
    Nat.or_zero]

theorem word_insert_self {w s : Nat} (hw : w < 65536) (hs : s ≤ 8) :
    (w &&& (0xFFFF ^^^ (0xFF <<< s))) ||| (((w >>> s) &&& 0xFF) <<< s) = w := by
  apply Nat.eq_of_testBit_eq
  intro i
  simp only [Nat.testBit_or, Nat.testBit_and, Nat.testBit_xor, Nat.testBit_shiftLeft,
    Nat.testBit_shiftRight, show (0xFF : Nat) = 2 ^ 8 - 1 from rfl,
    show (0xFFFF : Nat) = 2 ^ 16 - 1 from rfl, Nat.testBit_two_pow_sub_one]
  rcases Nat.lt_or_ge i s with hi | hi
  · have h1 : ¬ s ≤ i := by omega
    have h2 : i < 16 := by omega
    simp [h1, h2]
  · rcases Nat.lt_or_ge i (s + 8) with hi8 | hi8
    · have h1 : s ≤ i := hi
      have h2 : i < 16 := by omega
      have h3 : i - s < 8 := by omega
      have h4 : s + (i - s) = i := by omega
      simp [h1, h2, h3, h4]
    · rcases Nat.lt_or_ge i 16 with hi16 | hi16
      · have h1 : s ≤ i := hi
        have h3 : ¬ i - s < 8 := by omega
        simp [hi16, h1, h3]
      · have h1 : w.testBit i = false :=
          testBit_ge (show w < 2 ^ 16 from hw) hi16
        have h2 : ¬ i < 16 := by omega
        have h3 : ¬ i - s < 8 := by omega
        simp [h1, h2, h3]

theorem word_split_join {w : Nat} (hw : w < 65536) :
    (((w >>> 8) &&& 0xFF) <<< 8) ||| (w &&& 0xFF) = w := by
  have h1 : w &&& 0xFF = w % 256 := by
    simpa using Nat.and_pow_two_sub_one_eq_mod w 8
  have h2 : (w >>> 8) &&& 0xFF = (w / 256) % 256 := by
    have h := Nat.and_pow_two_sub_one_eq_mod (w >>> 8) 8
    rw [Nat.shiftRight_eq_div_pow] at h ⊢
    simpa using h
  rw [h1, h2, hilo_eq (Nat.mod_lt _ (by norm_num))]
  omega

theorem word_insert_lt {w v s : Nat} (hv : v < 256) (hs : s ≤ 8) :
    (w &&& (0xFFFF ^^^ (0xFF <<< s))) ||| (v <<< s) < 65536 := by
  rw [show (65536 : Nat) = 2 ^ 16 by norm_num]
  apply Nat.or_lt_two_pow
  · apply Nat.lt_of_le_of_lt Nat.and_le_right
    apply Nat.xor_lt_two_pow
    · norm_num
    · rw [Nat.shiftLeft_eq]
      have h2 : (2 : Nat) ^ s ≤ 2 ^ 8 := Nat.pow_le_pow_right (by norm_num) hs
      have h3 : (255 : Nat) * 2 ^ s ≤ 255 * 2 ^ 8 := Nat.mul_le_mul_left _ h2
      norm_num at h3 ⊢
      omega
  · rw [Nat.shiftLeft_eq]
    have h2 : (2 : Nat) ^ s ≤ 2 ^ 8 := Nat.pow_le_pow_right (by norm_num) hs
    have h3 : v * 2 ^ s ≤ 255 * 2 ^ 8 := Nat.mul_le_mul (by omega) h2
    norm_num at h3 ⊢
    omega

theorem word_join_lt {a b : Nat} (ha : a < 256) (hb : b < 256) :
    (a <<< 8) ||| b < 65536 := by
  rw [hilo_eq hb]
  omega

theorem word_extract_lt (w s : Nat) : (w >>> s) &&& 0xFF < 256 := by
  have h : (w >>> s) &&& 0xFF ≤ 0xFF := Nat.and_le_right
  omega

theorem word_hi {a b : Nat} (ha : a < 256) (hb : b < 256) :
    (((a <<< 8) ||| b) >>> 8) &&& 0xFF = a := by
  rw [hilo_eq hb, Nat.shiftRight_eq_div_pow]
  have h := Nat.and_pow_two_sub_one_eq_mod ((256 * a + b) / 2 ^ 8) 8
  norm_num at h ⊢
  omega

theorem word_lo {a b : Nat} (hb : b < 256) : ((a <<< 8) ||| b) &&& 0xFF = b := by
  rw [hilo_eq hb]
  have h := Nat.and_pow_two_sub_one_eq_mod (256 * a + b) 8
  norm_num at h ⊢
  omega

/-! `List.getD`-level consequences of the `List.set` lemmas. -/

theorem getD_set_self {l : List Nat} {i : Nat} (h : i < l.length) (a : Nat) :
    (l.set i a).getD i 0 = a := by
  simp [List.getD_eq_getElem?_getD, List.getElem?_set_self h]

theorem getD_set_ne {l : List Nat} {i j : Nat} (h : i ≠ j) (a : Nat) :
    (l.set i a).getD j 0 = l.getD j 0 := by
  simp [List.getD_eq_getElem?_getD, List.getElem?_set_ne h]

theorem set_getD_self {l : List Nat} {i : Nat} (h : i < l.length) :
    l.set i (l.getD i 0) = l := by
  apply List.ext_getElem (by simp)
  intro j h1 h2
  rcases eq_or_ne i j with rfl | hne
  · rw [List.getElem_set_self]
    simp [List.getD_eq_getElem?_getD, List.getElem?_eq_getElem h2]
  · rw [List.getElem_set_ne hne]

/-! Index arithmetic for the byte window under `Plane.wf`. -/

theorem row_idx_ne {W8 y y' a a' : Nat} (ha : a < W8) (ha' : a' < W8)
    (hyy : y ≠ y') : y * W8 + a ≠ y' * W8 + a' := by
  rcases Nat.lt_or_ge y y' with h | h
  · have h1 : (y + 1) * W8 ≤ y' * W8 := Nat.mul_le_mul_right _ h
    have h2 : y * W8 + a < (y + 1) * W8 := by
      rw [Nat.add_mul]
      omega
    omega
  · have hlt : y' < y := by omega
    have h1 : (y' + 1) * W8 ≤ y * W8 := Nat.mul_le_mul_right _ hlt
    have h2 : y' * W8 + a' < (y' + 1) * W8 := by
      rw [Nat.add_mul]
      omega
    omega

theorem window_facts (p : Plane) (hwf : p.wf) {x y : Nat} (hx : x < p.width)
    (hy : y < p.height) :
    y * p.width / 8 = y * (p.width / 8)
    ∧ x / 8 < p.width / 8
    ∧ (x / 8 + 1) % (p.width / 8) < p.width / 8
    ∧ x / 8 ≠ (x / 8 + 1) % (p.width / 8)
    ∧ (∀ a, a < p.width / 8 → y * (p.width / 8) + a < p.cells.length) := by
  obtain ⟨hlen, hw8, hwlo, hwhi, hh, hh256, hbytes⟩ := hwf
  have hdvd : 8 ∣ p.width := Nat.dvd_of_mod_eq_zero hw8
  have hline : y * p.width / 8 = y * (p.width / 8) := Nat.mul_div_assoc y hdvd
  have hW2 : 2 ≤ p.width / 8 := by
    have h16 : 16 / 8 ≤ p.width / 8 := Nat.div_le_div_right hwlo
    simpa using h16
  have hob : x / 8 < p.width / 8 := Nat.div_lt_div_of_lt_of_dvd hdvd hx
  refine ⟨hline, hob, Nat.mod_lt _ (by omega), ?_, ?_⟩
  · rcases Nat.lt_or_ge (x / 8 + 1) (p.width / 8) with hlt | hge
    · rw [Nat.mod_eq_of_lt hlt]
      omega
    · have he : x / 8 + 1 = p.width / 8 := by omega
      rw [he, Nat.mod_self]
      omega
  · intro a ha
    have h1 : y * (p.width / 8) + a < (y + 1) * (p.width / 8) := by
      rw [Nat.add_mul]
      omega
    have h2 : (y + 1) * (p.width / 8) ≤ p.height * (p.width / 8) :=
      Nat.mul_le_mul_right _ hy
    have h3 : p.width / 8 ≤ p.width := Nat.div_le_self _ _
    have h4 : p.height * (p.width / 8) ≤ p.height * p.width :=
      Nat.mul_le_mul_left _ h3
    omega

theorem cells_getD_lt (p : Plane) (hwf : p.wf) {i : Nat} (h : i < p.cells.length) :
    p.cells.getD i 0 < 256 := by
  obtain ⟨-, -, -, -, -, -, hbytes⟩ := hwf
  have he : p.cells.getD i 0 = p.cells[i] := by
    simp [List.getD_eq_getElem?_getD, List.getElem?_eq_getElem h]
  rw [he]
  exact hbytes _ (List.getElem_mem h)

theorem get_byte_lt (p : Plane) (x y : Nat) : p.get_byte x y < 256 := by
  unfold Plane.get_byte
  exact word_extract_lt _ _

theorem set_byte_width (p : Plane) (x y v : Nat) : (p.set_byte x y v).width = p.width := rfl

theorem set_byte_height (p : Plane) (x y v : Nat) : (p.set_byte x y v).height = p.height := rfl

theorem set_byte_length (p : Plane) (x y v : Nat) :
    (p.set_byte x y v).cells.length = p.cells.length := by
  unfold Plane.set_byte
  simp

theorem set_byte_wf (p : Plane) (hwf : p.wf) (x y v : Nat) : (p.set_byte x y v).wf := by
  obtain ⟨hlen, hw8, hwlo, hwhi, hh, hh256, hbytes⟩ := hwf
  refine ⟨?_, hw8, hwlo, hwhi, hh, hh256, ?_⟩
  · rw [set_byte_length, set_byte_height, set_byte_width]
    exact hlen
  · intro b hb
    unfold Plane.set_byte at hb
    simp only at hb
    rcases List.mem_or_eq_of_mem_set hb with hb1 | rfl
    · rcases List.mem_or_eq_of_mem_set hb1 with hb2 | rfl
      · exact hbytes b hb2
      · exact word_extract_lt _ _
    · exact Nat.lt_of_le_of_lt Nat.and_le_right (by norm_num)

theorem set_pair_overwrite {l : List Nat} {A B : Nat} (hAB : A ≠ B)
    (a1 b1 a2 b2 : Nat) :
    (((l.set A a1).set B b1).set A a2).set B b2 = (l.set A a2).set B b2 := by
  rw [List.set_comm b1 a2 (l.set A a1) (Ne.symm hAB), List.set_set, List.set_set]

theorem set_disjoint_comm {l : List Nat} {A B C D : Nat}
    (h1 : A ≠ C) (h2 : A ≠ D) (h3 : B ≠ C) (h4 : B ≠ D) (a b c d : Nat) :
    (((l.set A a).set B b).set C c).set D d = (((l.set C c).set D d).set A a).set B b := by
  rw [List.set_comm b c (l.set A a) h3, List.set_comm b d ((l.set A a).set C c) h4,
    List.set_comm a c l h1, List.set_comm a d (l.set C c) h2]

theorem get_set_byte_same (p : Plane) {x y v : Nat} (hwf : p.wf) (hx : x < p.width)
    (hy : y < p.height) (hv : v < 256) :
    (p.set_byte x y v).get_byte x y = v := by
  obtain ⟨hline, hob, hb, hne, hidx⟩ := window_facts p hwf hx hy
  have hlenA : y * p.width / 8 + x / 8 < p.cells.length := by
    rw [hline]
    exact hidx _ hob
  have hlenB : y * p.width / 8 + (x / 8 + 1) % (p.width / 8) < p.cells.length := by
    rw [hline]
    exact hidx _ hb
  have hABne : y * p.width / 8 + x / 8
      ≠ y * p.width / 8 + (x / 8 + 1) % (p.width / 8) := by omega
  have hs : 8 - x % 8 ≤ 8 := by omega
  unfold Plane.get_byte Plane.set_byte
  dsimp only
  rw [getD_set_ne (Ne.symm hABne), getD_set_self (by simpa using hlenA),
    getD_set_self (by simpa using hlenB),
    word_split_join (word_insert_lt hv hs), word_extract_insert hv hs]

theorem get_set_byte_other_row (p : Plane) {x x' y y' v : Nat} (hwf : p.wf)
    (hx : x < p.width) (hy : y < p.height) (hx' : x' < p.width) (hy' : y' < p.height)
    (hyy : y ≠ y') :
    (p.set_byte x y v).get_byte x' y' = p.get_byte x' y' := by
  obtain ⟨hline, hob, hb, hne, hidx⟩ := window_facts p hwf hx hy
  obtain ⟨hline', hob', hb', hne', hidx'⟩ := window_facts p hwf hx' hy'
  have h1 : y * p.width / 8 + x / 8 ≠ y' * p.width / 8 + x' / 8 := by
    rw [hline, hline']
    exact row_idx_ne hob hob' hyy
  have h2 : y * p.width / 8 + x / 8
      ≠ y' * p.width / 8 + (x' / 8 + 1) % (p.width / 8) := by
    rw [hline, hline']
    exact row_idx_ne hob hb' hyy
  have h3 : y * p.width / 8 + (x / 8 + 1) % (p.width / 8)
      ≠ y' * p.width / 8 + x' / 8 := by
    rw [hline, hline']
    exact row_idx_ne hb hob' hyy
  have h4 : y * p.width / 8 + (x / 8 + 1) % (p.width / 8)
      ≠ y' * p.width / 8 + (x' / 8 + 1) % (p.width / 8) := by
    rw [hline, hline']
    exact row_idx_ne hb hb' hyy
  unfold Plane.get_byte Plane.set_byte
  dsimp only
  rw [getD_set_ne h3, getD_set_ne h1, getD_set_ne h4, getD_set_ne h2]

theorem set_set_byte_same (p : Plane) {x y v1 v2 : Nat} (hwf : p.wf) (hx : x < p.width)
    (hy : y < p.height) (hv1 : v1 < 256) :
    (p.set_byte x y v1).set_byte x y v2 = p.set_byte x y v2 := by
  obtain ⟨hline, hob, hb, hne, hidx⟩ := window_facts p hwf hx hy
  have hlenA : y * p.width / 8 + x / 8 < p.cells.length := by
    rw [hline]
    exact hidx _ hob
  have hlenB : y * p.width / 8 + (x / 8 + 1) % (p.width / 8) < p.cells.length := by
    rw [hline]
    exact hidx _ hb
  have hABne : y * p.width / 8 + x / 8
      ≠ y * p.width / 8 + (x / 8 + 1) % (p.width / 8) := by omega
  have hs : 8 - x % 8 ≤ 8 := by omega
  unfold Plane.set_byte
  dsimp only
  rw [getD_set_ne (Ne.symm hABne), getD_set_self (by simpa using hlenA),
    getD_set_self (by simpa using hlenB),
    word_split_join (word_insert_lt hv1 hs), word_insert_insert hv1 hs]
  congr 1
  exact set_pair_overwrite hABne _ _ _ _

theorem set_byte_get_self (p : Plane) {x y : Nat} (hwf : p.wf) (hx : x < p.width)
    (hy : y < p.height) :
    p.set_byte x y (p.get_byte x y) = p := by
  obtain ⟨hline, hob, hb, hne, hidx⟩ := window_facts p hwf hx hy
  have hlenA : y * p.width / 8 + x / 8 < p.cells.length := by
    rw [hline]
    exact hidx _ hob
  have hlenB : y * p.width / 8 + (x / 8 + 1) % (p.width / 8) < p.cells.length := by
    rw [hline]
    exact hidx _ hb
  have hcA : p.cells.getD (y * p.width / 8 + x / 8) 0 < 256 := cells_getD_lt p hwf hlenA
  have hcB : p.cells.getD (y * p.width / 8 + (x / 8 + 1) % (p.width / 8)) 0 < 256 :=
    cells_getD_lt p hwf hlenB
  have hs : 8 - x % 8 ≤ 8 := by omega
  unfold Plane.set_byte Plane.get_byte
  dsimp only
  rw [word_insert_self (word_join_lt hcA hcB) hs, word_hi hcA hcB, word_lo hcB,
    set_getD_self hlenA, set_getD_self hlenB]

theorem set_byte_comm_rows (p : Plane) {x x' y y' v v' : Nat} (hwf : p.wf)
    (hx : x < p.width) (hy : y < p.height) (hx' : x' < p.width) (hy' : y' < p.height)
    (hyy : y ≠ y') :
    (p.set_byte x y v).set_byte x' y' v' = (p.set_byte x' y' v').set_byte x y v := by
  obtain ⟨hline, hob, hb, hne, hidx⟩ := window_facts p hwf hx hy
  obtain ⟨hline', hob', hb', hne', hidx'⟩ := window_facts p hwf hx' hy'
  have h1 : y * p.width / 8 + x / 8 ≠ y' * p.width / 8 + x' / 8 := by
    rw [hline, hline']
    exact row_idx_ne hob hob' hyy
  have h2 : y * p.width / 8 + x / 8
      ≠ y' * p.width / 8 + (x' / 8 + 1) % (p.width / 8) := by
    rw [hline, hline']
    exact row_idx_ne hob hb' hyy
  have h3 : y * p.width / 8 + (x / 8 + 1) % (p.width / 8)
      ≠ y' * p.width / 8 + x' / 8 := by
    rw [hline, hline']
    exact row_idx_ne hb hob' hyy
  have h4 : y * p.width / 8 + (x / 8 + 1) % (p.width / 8)
      ≠ y' * p.width / 8 + (x' / 8 + 1) % (p.width / 8) := by
    rw [hline, hline']
    exact row_idx_ne hb hb' hyy
  unfold Plane.set_byte
  dsimp only
  simp only [getD_set_ne h3, getD_set_ne h1, getD_set_ne h4, getD_set_ne h2,
    getD_set_ne (Ne.symm h2), getD_set_ne (Ne.symm h4), getD_set_ne (Ne.symm h1),
    getD_set_ne (Ne.symm h3)]
  congr 1
  exact set_disjoint_comm h1 h2 h3 h4 _ _ _ _

/-! Facts about the sprite-drawing loop `writeSpriteGo`. -/

theorem row_mod_ne {h a d : Nat} (hd : 0 < d) (hdh : d < h) : a % h ≠ (a + d) % h := by
  intro he
  have hmod : a ≡ a + d [MOD h] := he
  have hdvd : h ∣ a + d - a := (Nat.modEq_iff_dvd' (Nat.le_add_right a d)).mp hmod
  have hda : a + d - a = d := by omega
  rw [hda] at hdvd
  have := Nat.le_of_dvd hd hdvd
  omega

theorem writeSpriteGo_width (x y : Nat) (s : List Nat) :
    ∀ p i c, (writeSpriteGo x y p s i c).1.width = p.width := by
  induction s with
  | nil => intro p i c; rfl
  | cons a rest ih =>
    intro p i c
    show (writeSpriteGo x y _ rest (i + 1) _).1.width = p.width
    rw [ih]
    rfl

theorem writeSpriteGo_height (x y : Nat) (s : List Nat) :
    ∀ p i c, (writeSpriteGo x y p s i c).1.height = p.height := by
  induction s with
  | nil => intro p i c; rfl
  | cons a rest ih =>
    intro p i c
    show (writeSpriteGo x y _ rest (i + 1) _).1.height = p.height
    rw [ih]
    rfl

theorem writeSpriteGo_wf (x y : Nat) (s : List Nat) :
    ∀ p i c, p.wf → (writeSpriteGo x y p s i c).1.wf := by
  induction s with
  | nil => intro p i c hwf; exact hwf
  | cons a rest ih =>
    intro p i c hwf
    exact ih _ _ _ (set_byte_wf p hwf _ _ _)

theorem writeSpriteGo_get_untouched (x y : Nat) (s : List Nat) :
    ∀ p i c r, p.wf → x < p.width → r < p.height
      → (∀ j, j < s.length → (y + i + j) % p.height ≠ r)
      → (writeSpriteGo x y p s i c).1.get_byte x r = p.get_byte x r := by
  induction s with
  | nil => intro p i c r _ _ _ _; rfl
  | cons a rest ih =>
    intro p i c r hwf hx hr htouch
    have hh : 0 < p.height := hwf.2.2.2.2.1
    have hyr : (y + i) % p.height < p.height := Nat.mod_lt _ hh
    have hne : (y + i) % p.height ≠ r := by
      have := htouch 0 (by simp)
      simpa using this
    show (writeSpriteGo x y (p.set_byte x ((y + i) % p.height) _) rest (i + 1) _).1.get_byte x r
        = p.get_byte x r
    rw [ih (p.set_byte x ((y + i) % p.height) _) (i + 1) _ r
      (set_byte_wf p hwf _ _ _) hx hr ?_]
    · exact get_set_byte_other_row p hwf hx hyr hx hr hne
    · intro j hj
      have := htouch (j + 1) (by simpa using hj)
      have he : y + i + (j + 1) = y + (i + 1) + j := by omega
      rw [he] at this
      exact this

theorem writeSpriteGo_get_touched (x y : Nat) (s : List Nat) :
    ∀ p i c j, j < s.length → p.wf → x < p.width → s.length ≤ p.height
      → (∀ b ∈ s, b < 256)
      → (writeSpriteGo x y p s i c).1.get_byte x ((y + i + j) % p.height)
          = p.get_byte x ((y + i + j) % p.height) ^^^ s.getD j 0 := by
  induction s with
  | nil => intro p i c j hj; simp at hj
  | cons a rest ih =>
    intro p i c j hj hwf hx hlen hbytes
    have hh : 0 < p.height := hwf.2.2.2.2.1
    have ha : a < 256 := hbytes a (by simp)
    have hbrest : ∀ b ∈ rest, b < 256 := fun b hb => hbytes b (by simp [hb])
    have hcur : p.get_byte x ((y + i) % p.height) < 256 := get_byte_lt _ _ _
    have hyr : (y + i) % p.height < p.height := Nat.mod_lt _ hh
    show (writeSpriteGo x y (p.set_byte x ((y + i) % p.height) _) rest (i + 1) _).1.get_byte
        x ((y + i + j) % p.height) = _
    match j with
    | 0 =>
      have hxor : p.get_byte x ((y + i) % p.height) ^^^ a < 256 := by
        have := Nat.xor_lt_two_pow (n := 8) (by simpa using hcur) (by simpa using ha)
        simpa using this
      have huntouched : ∀ j', j' < rest.length
          → (y + (i + 1) + j') % p.height ≠ (y + i + 0) % p.height := by
        intro j' hj'
        have he : y + (i + 1) + j' = (y + i) + (1 + j') := by omega
        rw [he]
        have h1 : 0 < 1 + j' := by omega
        have h2 : 1 + j' < p.height := by
          simp at hlen
          omega
        exact (row_mod_ne h1 h2).symm
      rw [writeSpriteGo_get_untouched x y rest _ (i + 1) _ _
        (set_byte_wf p hwf _ _ _) hx (by simpa using hyr) huntouched]
      have he0 : y + i + 0 = y + i := by omega
      rw [he0]
      rw [get_set_byte_same p hwf hx hyr hxor]
      rfl
    | j' + 1 =>
      have he : y + i + (j' + 1) = y + (i + 1) + j' := by omega
      rw [he]
      have hih := ih
        (p.set_byte x ((y + i) % p.height) (p.get_byte x ((y + i) % p.height) ^^^ a))
        (i + 1) (c || decide (p.get_byte x ((y + i) % p.height) &&& a ≠ 0)) j'
        (by simpa using hj) (set_byte_wf p hwf _ _ _)
        (by rw [set_byte_width]; exact hx)
        (by rw [set_byte_height]; simp at hlen; omega) hbrest
      rw [set_byte_height] at hih
      rw [hih]
      have hyj : (y + (i + 1) + j') % p.height < p.height := Nat.mod_lt _ hh
      have hne : (y + i) % p.height ≠ (y + (i + 1) + j') % p.height := by
        have he2 : y + (i + 1) + j' = (y + i) + (1 + j') := by omega
        rw [he2]
        have hj2 : j' < rest.length := by simpa using hj
        have h2 : 1 + j' < p.height := by
          simp at hlen
          omega
        exact row_mod_ne (by omega) h2
      rw [get_set_byte_other_row p hwf hx hyr hx hyj hne]
      rfl

theorem writeSpriteGo_collision (x y : Nat) (s : List Nat) :
    ∀ p i c, p.wf → x < p.width → s.length ≤ p.height
      → ((writeSpriteGo x y p s i c).2 = true
          ↔ c = true ∨ ∃ j, j < s.length
              ∧ p.get_byte x ((y + i + j) % p.height) &&& s.getD j 0 ≠ 0) := by
  induction s with
  | nil =>
    intro p i c _ _ _
    show c = true ↔ _
    simp
  | cons a rest ih =>
    intro p i c hwf hx hlen
    have hh : 0 < p.height := hwf.2.2.2.2.1
    have hyr : (y + i) % p.height < p.height := Nat.mod_lt _ hh
    have hlenr : rest.length + 1 ≤ p.height := by simpa using hlen
    have hget : ∀ j, j < rest.length →
        (p.set_byte x ((y + i) % p.height)
            (p.get_byte x ((y + i) % p.height) ^^^ a)).get_byte
            x ((y + (i + 1) + j) % p.height)
          = p.get_byte x ((y + (i + 1) + j) % p.height) := by
      intro j hj
      have hyj : (y + (i + 1) + j) % p.height < p.height := Nat.mod_lt _ hh
      apply get_set_byte_other_row p hwf hx hyr hx hyj
      have he2 : y + (i + 1) + j = (y + i) + (1 + j) := by omega
      rw [he2]
      exact row_mod_ne (by omega) (by omega)
    have hih := ih
      (p.set_byte x ((y + i) % p.height) (p.get_byte x ((y + i) % p.height) ^^^ a))
      (i + 1) (c || decide (p.get_byte x ((y + i) % p.height) &&& a ≠ 0))
      (set_byte_wf p hwf _ _ _) (by rw [set_byte_width]; exact hx)
      (by rw [set_byte_height]; omega)
    rw [set_byte_height] at hih
    show (writeSpriteGo x y _ rest (i + 1) _).2 = true ↔ _
    rw [hih]
    constructor
    · rintro (hcd | ⟨j, hj, hcol⟩)
      · rcases Bool.or_eq_true_iff.mp hcd with hc | hd
        · exact Or.inl hc
        · refine Or.inr ⟨0, by simp, ?_⟩
          have he0 : y + i + 0 = y + i := by omega
          rw [he0]
          simpa using of_decide_eq_true hd
      · refine Or.inr ⟨j + 1, by simpa using hj, ?_⟩
        rw [hget j hj] at hcol
        have he : y + i + (j + 1) = y + (i + 1) + j := by omega
        rw [he]
        simpa using hcol
    · rintro (hc | ⟨j, hj, hcol⟩)
      · exact Or.inl (by simp [hc])
      · match j with
        | 0 =>
          refine Or.inl ?_
          have he0 : y + i + 0 = y + i := by omega
          rw [he0] at hcol
          simp only [List.getD_cons_zero] at hcol
          simp [hcol]
        | j' + 1 =>
          refine Or.inr ⟨j', by simpa using hj, ?_⟩
          rw [hget j' (by simpa using hj)]
          have he : y + (i + 1) + j' = y + i + (j' + 1) := by omega
          rw [he]
          simpa using hcol

theorem writeSpriteGo_set_comm (x y : Nat) (s : List Nat) :
    ∀ p i c r w, p.wf → x < p.width → r < p.height
      → (∀ j, j < s.length → (y + i + j) % p.height ≠ r)
      → writeSpriteGo x y (p.set_byte x r w) s i c
          = ((writeSpriteGo x y p s i c).1.set_byte x r w,
            (writeSpriteGo x y p s i c).2) := by
  induction s with
  | nil => intro p i c r w _ _ _ _; rfl
  | cons a rest ih =>
    intro p i c r w hwf hx hr htouch
    have hh : 0 < p.height := hwf.2.2.2.2.1
    have hyr : (y + i) % p.height < p.height := Nat.mod_lt _ hh
    have hne : r ≠ (y + i) % p.height := by
      have h0 := htouch 0 (by simp)
      have he0 : y + i + 0 = y + i := by omega
      rw [he0] at h0
      exact h0.symm
    have hgr : (p.set_byte x r w).get_byte x ((y + i) % p.height)
        = p.get_byte x ((y + i) % p.height) := by
      exact get_set_byte_other_row p hwf hx hr hx hyr hne
    show writeSpriteGo x y
        ((p.set_byte x r w).set_byte x ((y + i) % (p.set_byte x r w).height)
          ((p.set_byte x r w).get_byte x ((y + i) % (p.set_byte x r w).height) ^^^ a))
        rest (i + 1)
        (c || decide ((p.set_byte x r w).get_byte x
          ((y + i) % (p.set_byte x r w).height) &&& a ≠ 0)) = _
    rw [set_byte_height, hgr,
      set_byte_comm_rows p hwf hx hr hx hyr hne]
    have hih := ih
      (p.set_byte x ((y + i) % p.height) (p.get_byte x ((y + i) % p.height) ^^^ a))
      (i + 1) (c || decide (p.get_byte x ((y + i) % p.height) &&& a ≠ 0)) r w
      (set_byte_wf p hwf _ _ _) (by rw [set_byte_width]; exact hx)
      (by rw [set_byte_height]; exact hr) ?_
    · rw [hih]
      rfl
    · intro j hj
      rw [set_byte_height]
      have hjt := htouch (j + 1) (by simpa using hj)
      have he : y + i + (j + 1) = y + (i + 1) + j := by omega
      rw [he] at hjt
      exact hjt

theorem writeSpriteGo_restore (x y : Nat) (s : List Nat) :
    ∀ p i c c', p.wf → x < p.width → s.length ≤ p.height → (∀ b ∈ s, b < 256)
      → (writeSpriteGo x y (writeSpriteGo x y p s i c).1 s i c').1 = p := by
  induction s with
  | nil => intro p i c c' _ _ _ _; rfl
  | cons a rest ih =>
    intro p i c c' hwf hx hlen hbytes
    have hh : 0 < p.height := hwf.2.2.2.2.1
    have hyr : (y + i) % p.height < p.height := Nat.mod_lt _ hh
    have ha : a < 256 := hbytes a (by simp)
    have hbrest : ∀ b ∈ rest, b < 256 := fun b hb => hbytes b (by simp [hb])
    have hlenr : rest.length + 1 ≤ p.height := by simpa using hlen
    have hcur : p.get_byte x ((y + i) % p.height) < 256 := get_byte_lt _ _ _
    have hxor : p.get_byte x ((y + i) % p.height) ^^^ a < 256 := by
      have := Nat.xor_lt_two_pow (n := 8) (by simpa using hcur) (by simpa using ha)
      simpa using this
    have hp1wf : (p.set_byte x ((y + i) % p.height)
        (p.get_byte x ((y + i) % p.height) ^^^ a)).wf := set_byte_wf p hwf _ _ _
    -- the first pass: p ↦ F
    have hFh : (writeSpriteGo x y
        (p.set_byte x ((y + i) % p.height) (p.get_byte x ((y + i) % p.height) ^^^ a))
        rest (i + 1)
        (c || decide (p.get_byte x ((y + i) % p.height) &&& a ≠ 0))).1.height
        = p.height := by
      rw [writeSpriteGo_height, set_byte_height]
    have huntouched : ∀ j, j < rest.length
        → (y + (i + 1) + j)
            % (p.set_byte x ((y + i) % p.height)
                (p.get_byte x ((y + i) % p.height) ^^^ a)).height
          ≠ (y + i) % p.height := by
      intro j hj
      rw [set_byte_height]
      have he : y + (i + 1) + j = (y + i) + (1 + j) := by omega
      rw [he]
      exact (row_mod_ne (by omega) (by omega)).symm
    -- evaluate the head read of the second pass
    have hFget : (writeSpriteGo x y
        (p.set_byte x ((y + i) % p.height) (p.get_byte x ((y + i) % p.height) ^^^ a))
        rest (i + 1)
        (c || decide (p.get_byte x ((y + i) % p.height) &&& a ≠ 0))).1.get_byte
        x ((y + i) % p.height)
        = p.get_byte x ((y + i) % p.height) ^^^ a := by
      rw [writeSpriteGo_get_untouched x y rest _ (i + 1) _ _ hp1wf
        (by rw [set_byte_width]; exact hx) (by rw [set_byte_height]; exact hyr)
        huntouched]
      exact get_set_byte_same p hwf hx hyr hxor
    show (writeSpriteGo x y _ rest (i + 1) _).1 = p
    rw [show writeSpriteGo x y p (a :: rest) i c
        = writeSpriteGo x y
          (p.set_byte x ((y + i) % p.height) (p.get_byte x ((y + i) % p.height) ^^^ a))
          rest (i + 1)
          (c || decide (p.get_byte x ((y + i) % p.height) &&& a ≠ 0)) from rfl]
    rw [hFh, hFget]
    have hxa : p.get_byte x ((y + i) % p.height) ^^^ a ^^^ a
        = p.get_byte x ((y + i) % p.height) := by
      rw [Nat.xor_assoc, Nat.xor_self, Nat.xor_zero]
    rw [hxa]
    have hcomm := writeSpriteGo_set_comm x y rest
      (p.set_byte x ((y + i) % p.height) (p.get_byte x ((y + i) % p.height) ^^^ a))
      (i + 1) (c || decide (p.get_byte x ((y + i) % p.height) &&& a ≠ 0))
      ((y + i) % p.height) (p.get_byte x ((y + i) % p.height))
      hp1wf (by rw [set_byte_width]; exact hx) (by rw [set_byte_height]; exact hyr)
      huntouched
    have hcells : (writeSpriteGo x y
        (p.set_byte x ((y + i) % p.height) (p.get_byte x ((y + i) % p.height) ^^^ a))
        rest (i + 1)
        (c || decide (p.get_byte x ((y + i) % p.height) &&& a ≠ 0))).1.set_byte
        x ((y + i) % p.height) (p.get_byte x ((y + i) % p.height))
        = (writeSpriteGo x y
            ((p.set_byte x ((y + i) % p.height)
                (p.get_byte x ((y + i) % p.height) ^^^ a)).set_byte
              x ((y + i) % p.height) (p.get_byte x ((y + i) % p.height)))
            rest (i + 1)
            (c || decide (p.get_byte x ((y + i) % p.height) &&& a ≠ 0))).1 := by
      rw [hcomm]
    rw [hcells,
      set_set_byte_same p hwf hx hyr hxor,
      set_byte_get_self p hwf hx hyr]
    exact ih p (i + 1)
      (c || decide (p.get_byte x ((y + i) % p.height) &&& a ≠ 0)) _ hwf hx
      (by omega) hbrest

theorem xor_and_eq {g s : Nat} (hg : g < 256) (hs : s < 256) :
    (g ^^^ s) &&& s = s &&& (255 ^^^ g) := by
  apply Nat.eq_of_testBit_eq
  intro i
  simp only [Nat.testBit_and, Nat.testBit_xor, show (255 : Nat) = 2 ^ 8 - 1 from rfl,
    Nat.testBit_two_pow_sub_one]
  rcases Nat.lt_or_ge i 8 with hi | hi
  · cases hgb : g.testBit i <;> cases hsb : s.testBit i <;> simp [hi]
  · have h1 : s.testBit i = false := testBit_ge (show s < 2 ^ 8 from hs) hi
    simp [h1]

theorem getD_lt_of_bytes {s : List Nat} (hb : ∀ b ∈ s, b < 256) {j : Nat}
    (hj : j < s.length) : s.getD j 0 < 256 := by
  have he : s.getD j 0 = s[j] := by
    simp [List.getD_eq_getElem?_getD, List.getElem?_eq_getElem hj]
  rw [he]
  exact hb _ (List.getElem_mem hj)

/-- C5: drawing the same sprite at the same coordinates twice restores the
pre-draw bitmap exactly; the second draw reports a collision exactly when the
first draw set some previously-clear bit; and a draw's collision flag is set
exactly when some sprite bit lands on a previously-set pixel (the AND-of-old-
and-new formula).  The sprite bytes are bytes and the sprite is at most
`height` rows (true of every `DRW`-generated sprite: at most 16 rows against a
32- or 64-row plane), so each sprite row lands on a distinct plane row. -/
theorem C5_sprite_xor (p : Plane) (sprite : List Nat) (x y : Nat) (hwf : p.wf)
    (hb : ∀ b ∈ sprite, b < 256) (hlen : sprite.length ≤ p.height) :
    (((p.write_sprite sprite x y).1.write_sprite sprite x y).1 = p)
    ∧ (((p.write_sprite sprite x y).1.write_sprite sprite x y).2 = true
        ↔ ∃ j, j < sprite.length
            ∧ sprite.getD j 0 &&&
                (255 ^^^ p.get_byte (x % p.width) ((y % p.height + j) % p.height)) ≠ 0)
    ∧ ((p.write_sprite sprite x y).2 = true
        ↔ ∃ j, j < sprite.length
            ∧ p.get_byte (x % p.width) ((y % p.height + j) % p.height)
                &&& sprite.getD j 0 ≠ 0) := by
  have hwhi : p.width < 256 := hwf.2.2.2.1
  have hh256 : p.height < 256 := hwf.2.2.2.2.2.1
  have hh : 0 < p.height := hwf.2.2.2.2.1
  have hw0 : 0 < p.width := by
    have := hwf.2.2.1
    omega
  have hx' : x % p.width < p.width := Nat.mod_lt _ hw0
  have hy' : y % p.height < p.height := Nat.mod_lt _ hh
  have hmw : p.width % 256 = p.width := Nat.mod_eq_of_lt hwhi
  have hmh : p.height % 256 = p.height := Nat.mod_eq_of_lt hh256
  have hFwf := writeSpriteGo_wf (x % p.width) (y % p.height) sprite p 0 false hwf
  have hFw := writeSpriteGo_width (x % p.width) (y % p.height) sprite p 0 false
  have hFh := writeSpriteGo_height (x % p.width) (y % p.height) sprite p 0 false
  unfold Plane.write_sprite
  rw [hmw, hmh, hFw, hFh, hmw, hmh]
  refine ⟨?_, ?_, ?_⟩
  · exact writeSpriteGo_restore _ _ sprite p 0 false false hwf hx' hlen hb
  · have hcoll2 := writeSpriteGo_collision (x % p.width) (y % p.height) sprite
      ((writeSpriteGo (x % p.width) (y % p.height) p sprite 0 false).1) 0 false
      hFwf (by rw [hFw]; exact hx') (by rw [hFh]; exact hlen)
    rw [hFh] at hcoll2
    rw [hcoll2]
    constructor
    · rintro (hfalse | ⟨j, hj, hc⟩)
      · cases hfalse
      · refine ⟨j, hj, ?_⟩
        rw [writeSpriteGo_get_touched (x % p.width) (y % p.height) sprite p 0 false
          j hj hwf hx' hlen hb] at hc
        rw [xor_and_eq (get_byte_lt _ _ _) (getD_lt_of_bytes hb hj)] at hc
        rw [show y % p.height + 0 + j = y % p.height + j from by omega] at hc
        exact hc
    · rintro ⟨j, hj, hc⟩
      refine Or.inr ⟨j, hj, ?_⟩
      rw [writeSpriteGo_get_touched (x % p.width) (y % p.height) sprite p 0 false
        j hj hwf hx' hlen hb]
      rw [xor_and_eq (get_byte_lt _ _ _) (getD_lt_of_bytes hb hj)]
      rw [show y % p.height + 0 + j = y % p.height + j from by omega]
      exact hc
  · have hcoll1 := writeSpriteGo_collision (x % p.width) (y % p.height) sprite p 0 false
      hwf hx' hlen
    rw [hcoll1]
    constructor
    · rintro (hfalse | ⟨j, hj, hc⟩)
      · cases hfalse
      · refine ⟨j, hj, ?_⟩
        rw [show y % p.height + 0 + j = y % p.height + j from by omega] at hc
        exact hc
    · rintro ⟨j, hj, hc⟩
      refine Or.inr ⟨j, hj, ?_⟩
      rw [show y % p.height + 0 + j = y % p.height + j from by omega]
      exact hc

/-- 16×2 all-zero plane for the C5 witness. -/
def planeC5 : Plane := ⟨List.replicate 32 0, 16, 2⟩

/-- C5 witness: drawing the 8-pixel row `0xF0` at the unaligned column 4 of the
zero plane twice restores the plane, and the second draw reports a collision. -/
theorem C5_witness :
    ((planeC5.write_sprite [0xF0] 4 0).1.write_sprite [0xF0] 4 0).1 = planeC5
      ∧ ((planeC5.write_sprite [0xF0] 4 0).1.write_sprite [0xF0] 4 0).2 = true := by
  have h := C5_sprite_xor planeC5 [0xF0] 4 0
    (by constructor <;> decide) (by decide) (by decide)
  exact ⟨h.1, h.2.1.mpr ⟨0, by decide, by decide⟩⟩

/-! ## Display (src/cpu.rs lines 196-368)

The display owns exactly two planes; `active_planes` is the plane-select
bitmask.  `colors` and the update counters are carried for fidelity. -/

def WIDTH : Nat := 64

def HEIGHT : Nat := 32

def MEMSIZE : Nat := 65536

structure Display where
  planes : List Plane
  width : Nat
  height : Nat
  updates : Nat
  updated : Bool
  extended : Bool
  colors : List Nat
  activePlanes : Nat

def Display.new (height width : Nat) : Display :=
  ⟨[Plane.new height width, Plane.new height width], width, height, 0, true, false,
    [0x00AA4400, 0x00FFAA00, 0x00AAAAAA, 0x00000000], 0x1⟩

def Display.set_extended (d : Display) (ext : Bool) : Display :=
  let h := if ext then HEIGHT * 2 else HEIGHT
  let w := if ext then WIDTH * 2 else WIDTH
  { d with
    height := h
    width := w
    extended := ext
    planes := [Plane.new h w, Plane.new h w] }

def Display.flag_updated (d : Display) : Display :=
  { d with updated := true, updates := d.updates + 1 }

/-- Applies `f` to every plane whose bit is set in `active_planes` (the
`for (i, plane) in planes.iter_mut().enumerate()` loops of cpu.rs:258-301). -/
def Display.mapActive (d : Display) (f : Plane → Plane) : Display :=
  { d with planes := d.planes.mapIdx fun i pl =>
      if (d.activePlanes >>> i) &&& 0x1 = 1 then f pl else pl }

def Display.scroll_down (d : Display) (n : Nat) : Display :=
  (d.mapActive fun pl => pl.scroll_down n).flag_updated

def Display.scroll_up (d : Display) (n : Nat) : Display :=
  (d.mapActive fun pl => pl.scroll_up n).flag_updated

def Display.scroll_right (d : Display) : Display :=
  (d.mapActive fun pl => pl.scroll_right).flag_updated

def Display.scroll_left (d : Display) : Display :=
  (d.mapActive fun pl => pl.scroll_left).flag_updated

def Display.clear (d : Display) : Display :=
  (d.mapActive fun pl => pl.clear).flag_updated

/-- `Display::write_sprite` (cpu.rs:303-321).  When both planes are active the
sprite byte range is split in half, first half to plane 0, second to plane 1;
otherwise each active plane draws the whole sprite. -/
def Display.write_sprite (d : Display) (sprite : List Nat) (x y : Nat) :
    Display × Bool :=
  if d.activePlanes = 0x3 then
    let length := sprite.length
    let r0 := (d.planes.getD 0 (Plane.new 0 0)).write_sprite (sprite.take (length / 2)) x y
    let r1 := (d.planes.getD 1 (Plane.new 0 0)).write_sprite (sprite.drop (length / 2)) x y
    (Display.flag_updated { d with planes := [r0.1, r1.1] }, r0.2 || r1.2)
  else
    let rs := d.planes.mapIdx fun i pl =>
      if (d.activePlanes >>> i) &&& 0x1 = 1 then pl.write_sprite sprite x y else (pl, false)
    (Display.flag_updated { d with planes := rs.map Prod.fst }, rs.any Prod.snd)

/-- Outcome of a fallible or panicking operation: `ok` is the `Ok` branch of
the Rust `Result`, `err` a propagated `anyhow::Error`, and `panicked` a Rust
panic (including overflow checks and slice-bounds failures). -/
inductive Outcome (α : Type) where
  | ok : α → Outcome α
  | err : String → Outcome α
  | panicked : String → Outcome α

def Outcome.isErr {α : Type} : Outcome α → Bool
  | .err _ => true
  | _ => false

def Outcome.isOk {α : Type} : Outcome α → Bool
  | .ok _ => true
  | _ => false

/-- `Display::write_sprite16` (cpu.rs:323-343).  The `try_into()?` conversions
to `[u8; 32]` surface as `err`; the `try_into().unwrap()` in the single-plane
branch surfaces as a panic. -/
def Display.write_sprite16 (d : Display) (sprite : List Nat) (x y : Nat) :
    Outcome (Display × Bool) :=
  if d.activePlanes = 0x3 then
    let length := sprite.length
    if length / 2 = 32 ∧ length - length / 2 = 32 then
      let r0 := (d.planes.getD 0 (Plane.new 0 0)).write_sprite16 (sprite.take (length / 2)) x y
      let r1 := (d.planes.getD 1 (Plane.new 0 0)).write_sprite16 (sprite.drop (length / 2)) x y
      .ok (Display.flag_updated { d with planes := [r0.1, r1.1] }, r0.2 || r1.2)
    else .err "could not convert slice to array"
  else
    if sprite.length = 32 then
      let rs := d.planes.mapIdx fun i pl =>
        if (d.activePlanes >>> i) &&& 0x1 = 1 then pl.write_sprite16 sprite x y
        else (pl, false)
      .ok (Display.flag_updated { d with planes := rs.map Prod.fst }, rs.any Prod.snd)
    else .panicked "called unwrap on an Err value"

/-! ## Cpu (src/cpu.rs lines 370-781)

`memory`, `v`, `stack`, `repl`, the sound pattern buffer and the key state are
total functions (the Rust arrays have construction-bounded indices; indexing
that can genuinely go out of bounds is guarded and surfaces as `panicked`).
`Instant::now()` is the explicit `now` argument and `rand::random` the
explicit `rnd` argument of `process_instruction`.  The `Sound` device handle
performs no state-relevant work and is omitted.  u8/u16 arithmetic wraps
(release-profile semantics) except where both Rust profiles panic. -/

structure Cpu where
  display : Display
  keys : Nat → Bool
  prevKeys : Nat → Bool
  soundMemory : Nat → Nat
  dt : Timer
  st : Timer
  memory : Nat → Nat
  v : Nat → Nat
  pc : Nat
  sp : Nat
  stack : Nat → Nat
  i : Nat
  clockSteps : Nat
  repl : Nat → Nat

/-- Pointwise update of a function-modelled register file / array. -/
def updFn (f : Nat → Nat) (idx val : Nat) : Nat → Nat :=
  fun j => if j = idx then val else f j

/-- `read_memory` (cpu.rs:783-785): big-endian 16-bit read. -/
def read_memory (mem : Nat → Nat) (addr : Nat) : Nat :=
  (mem addr <<< 8) ||| mem (addr + 1)

def Cpu.next_instruction (c : Cpu) : Nat :=
  read_memory c.memory c.pc

/-- `Cpu::skip_instruction` (cpu.rs:443-448): advance `pc` by 2, and by 2 more
when the word being skipped is the 4-byte extended-address load `F000`. -/
def Cpu.skip_instruction (c : Cpu) : Cpu :=
  let c1 := { c with pc := (c.pc + 2) % 65536 }
  if c1.next_instruction = 0xF000 then { c1 with pc := (c1.pc + 2) % 65536 } else c1

/-- The shared `self.pc += 2` fall-through after the dispatch (cpu.rs:778). -/
def Cpu.pcStep (c : Cpu) : Cpu :=
  { c with pc := (c.pc + 2) % 65536 }

/-- `Cpu::process_instruction` (cpu.rs:459-780).  The source's flat
four-nibble `match` is transcribed as a two-level dispatch — top nibble first,
then the finer nibbles — with the same arms in the same order inside each
group and the same panicking default; the arm groups never overlap across top
nibbles, so the dispatch is semantically identical to the flat match.  Arms
that end in the Rust `return Ok(())` skip the trailing `pc += 2`; all others
go through `pcStep`.  Slice-bounds violations surface as `panicked`.  In the
5xy2 / 5xy3 block transfers the release profile wraps `let range = y - x` in
`usize` and wraps the slice bound `i + range + 1` again, so `x = y + 1` yields
the empty slices `memory[i..i]` / `v[x..x]` — a silent no-op that still
advances `pc` — while `y + 1 < x` leaves an invalid slice bound (start past
end, or an end beyond the 65536-byte memory) and panics; the arms model this
with explicit `% 2^64` arithmetic. -/
def Cpu.process_instruction (c : Cpu) (now : ℚ) (rnd : Nat) (instr : Nat) : Outcome Cpu :=
  let x := (instr >>> 8) &&& 0xF
  let y := (instr >>> 4) &&& 0xF
  let nnn := instr &&& 0xFFF
  let kk := instr &&& 0xFF
  match (instr >>> 12) &&& 0xF with
  | 0x0 =>
    match (instr >>> 4) &&& 0xF with
    | 0xC =>
      match (instr >>> 8) &&& 0xF with
      | 0x0 => .ok (Cpu.pcStep { c with display := c.display.scroll_down (instr &&& 0xF) })
      | _ => .panicked ("unknown opcode: " ++ toString instr)
    | 0xD =>
      match (instr >>> 8) &&& 0xF with
      | 0x0 => .ok (Cpu.pcStep { c with display := c.display.scroll_up (instr &&& 0xF) })
      | _ => .panicked ("unknown opcode: " ++ toString instr)
    | 0xE =>
      match instr &&& 0xF with
      | 0x0 => .ok (Cpu.pcStep { c with display := c.display.clear })
      | 0xE =>
        if c.sp ≤ 15 then
          .ok (Cpu.pcStep { c with
            pc := c.stack c.sp
            sp := if c.sp = 0 then 255 else c.sp - 1 })
        else .panicked "index out of bounds"
      | _ => .panicked ("unknown opcode: " ++ toString instr)
    | 0xF =>
      match (instr >>> 8) &&& 0xF, instr &&& 0xF with
      | 0x0, 0xB => .ok (Cpu.pcStep { c with display := c.display.scroll_right })
      | 0x0, 0xC => .ok (Cpu.pcStep { c with display := c.display.scroll_left })
      | 0x0, 0xD => .ok (Cpu.pcStep c)
      | 0x0, 0xE => .ok (Cpu.pcStep { c with display := c.display.set_extended false })
      | 0x0, 0xF => .ok (Cpu.pcStep { c with display := c.display.set_extended true })
      | _, _ => .panicked ("unknown opcode: " ++ toString instr)
    | _ => .panicked ("unknown opcode: " ++ toString instr)
  | 0x1 =>
    .ok { c with pc := nnn }
  | 0x2 =>
    let sp1 := (c.sp + 1) % 256
    if sp1 ≤ 15 then
      .ok { c with
        sp := sp1
        stack := updFn c.stack sp1 c.pc
        pc := nnn }
    else .panicked "index out of bounds"
  | 0x3 =>
    if c.v x = kk then .ok (Cpu.pcStep c.skip_instruction) else .ok (Cpu.pcStep c)
  | 0x4 =>
    if c.v x ≠ kk then .ok (Cpu.pcStep c.skip_instruction) else .ok (Cpu.pcStep c)
  | 0x5 =>
    match instr &&& 0xF with
    | 0x0 =>
      if c.v x = c.v y then .ok (Cpu.pcStep c.skip_instruction) else .ok (Cpu.pcStep c)
    | 0x2 =>
      let range := (y + (18446744073709551616 - x)) % 18446744073709551616
      let endB := (c.i + range + 1) % 18446744073709551616
      if c.i ≤ endB ∧ endB ≤ 65536 then
        if x ≤ y + 1 then
          if endB - c.i = y + 1 - x then
            .ok (Cpu.pcStep { c with
              memory := fun a =>
                if c.i ≤ a ∧ a < endB then c.v (x + (a - c.i)) else c.memory a })
          else .panicked "source slice length does not match destination slice length"
        else .panicked "slice index out of range"
      else .panicked "slice index out of range"
    | 0x3 =>
      let range := (y + (18446744073709551616 - x)) % 18446744073709551616
      let endB := (c.i + range + 1) % 18446744073709551616
      if c.i ≤ endB ∧ endB ≤ 65536 then
        if x ≤ y + 1 then
          if endB - c.i = y + 1 - x then
            .ok (Cpu.pcStep { c with
              v := fun j => if x ≤ j ∧ j ≤ y then c.memory (c.i + (j - x)) else c.v j })
          else .panicked "source slice length does not match destination slice length"
        else .panicked "slice index out of range"
      else .panicked "slice index out of range"
    | _ => .panicked ("unknown opcode: " ++ toString instr)
  | 0x6 =>
    .ok (Cpu.pcStep { c with v := updFn c.v x kk })
  | 0x7 =>
    .ok (Cpu.pcStep { c with v := updFn c.v x ((c.v x + kk) &&& 0xFF) })
  | 0x8 =>
    match instr &&& 0xF with
    | 0x0 =>
      .ok (Cpu.pcStep { c with v := updFn c.v x (c.v y) })
    | 0x1 =>
      .ok (Cpu.pcStep { c with v := updFn c.v x (c.v x ||| c.v y) })
    | 0x2 =>
      .ok (Cpu.pcStep { c with v := updFn c.v x (c.v x &&& c.v y) })
    | 0x3 =>
      .ok (Cpu.pcStep { c with v := updFn c.v x (c.v x ^^^ c.v y) })
    | 0x4 =>
      let res := c.v x + c.v y
      let vf := if 255 < res then 1 else 0
      .ok (Cpu.pcStep { c with v := updFn (updFn c.v x (res &&& 0xFF)) 0xF vf })
    | 0x5 =>
      -- i16 subtraction on byte-valued registers: negative results get 256 added
      let vf := if c.v x < c.v y then 0 else 1
      let res := if c.v x < c.v y then 256 + c.v x - c.v y else c.v x - c.v y
      .ok (Cpu.pcStep { c with v := updFn (updFn c.v x (res &&& 0xFF)) 0xF vf })
    | 0x6 =>
      let vf := c.v y &&& 0x1
      .ok (Cpu.pcStep { c with v := updFn (updFn c.v x (c.v y >>> 1)) 0xF vf })
    | 0x7 =>
      let vf := if c.v y < c.v x then 0 else 1
      let res := if c.v y < c.v x then 256 + c.v y - c.v x else c.v y - c.v x
      .ok (Cpu.pcStep { c with v := updFn (updFn c.v x (res &&& 0xFF)) 0xF vf })
    | 0xE =>
      -- the flag write happens first, so `v[y]` is read after it (y = 0xF aliases)
      let v1 := updFn c.v 0xF ((c.v y >>> 7) &&& 0x1)
      .ok (Cpu.pcStep { c with v := updFn v1 x ((v1 y <<< 1) % 256) })
    | _ => .panicked ("unknown opcode: " ++ toString instr)
  | 0x9 =>
    if c.v x ≠ c.v y then .ok (Cpu.pcStep c.skip_instruction) else .ok (Cpu.pcStep c)
  | 0xA =>
    .ok (Cpu.pcStep { c with i := nnn })
  | 0xB =>
    .ok { c with pc := nnn + c.v 0 }
  | 0xC =>
    .ok (Cpu.pcStep { c with v := updFn c.v x (rnd &&& kk) })
  | 0xD =>
    let start := c.i
    if instr &&& 0xF = 0 then
      let endIdx := if c.display.activePlanes = 0x3 then start + 64 else start + 32
      if 65536 < endIdx then .panicked "slice index out of range"
      else
        let sprites := (List.range (endIdx - start)).map fun k => c.memory (start + k)
        match c.display.write_sprite16 sprites (c.v x) (c.v y) with
        | .ok (d, coll) =>
          .ok (Cpu.pcStep { c with
            display := d
            v := updFn c.v 0xF (if coll then 1 else 0) })
        | .err e => .err e
        | .panicked m => .panicked m
    else
      let endIdx := if c.display.activePlanes = 0x3 then start + (instr &&& 0xF) * 2
        else start + (instr &&& 0xF)
      if 65536 < endIdx then .panicked "slice index out of range"
      else
        let sprites := (List.range (endIdx - start)).map fun k => c.memory (start + k)
        let r := c.display.write_sprite sprites (c.v x) (c.v y)
        .ok (Cpu.pcStep { c with
          display := r.1
          v := updFn c.v 0xF (if r.2 then 1 else 0) })
  | 0xE =>
    match (instr >>> 4) &&& 0xF, instr &&& 0xF with
    | 0x9, 0xE =>
      if c.v x ≤ 15 then
        if c.keys (c.v x) = true then .ok (Cpu.pcStep c.skip_instruction)
        else .ok (Cpu.pcStep c)
      else .panicked "index out of bounds"
    | 0xA, 0x1 =>
      if c.v x ≤ 15 then
        if c.keys (c.v x) = false then .ok (Cpu.pcStep c.skip_instruction)
        else .ok (Cpu.pcStep c)
      else .panicked "index out of bounds"
    | _, _ => .panicked ("unknown opcode: " ++ toString instr)
  | 0xF =>
    match (instr >>> 4) &&& 0xF with
    | 0x0 =>
      match (instr >>> 8) &&& 0xF, instr &&& 0xF with
      | 0x0, 0x0 =>
        .ok (Cpu.pcStep { c with
          pc := (c.pc + 2) % 65536
          i := read_memory c.memory ((c.pc + 2) % 65536) })
      | _, 0x1 =>
        .ok (Cpu.pcStep { c with display := { c.display with activePlanes := x } })
      | 0x0, 0x2 =>
        if c.i + 16 ≤ 65536 then
          .ok (Cpu.pcStep { c with
            soundMemory := fun k => if k < 16 then c.memory (c.i + k) else c.soundMemory k })
        else .panicked "slice index out of range"
      | _, 0x7 =>
        .ok (Cpu.pcStep { c with v := updFn c.v x (c.dt.get_reg now) })
      | _, 0xA =>
        match (List.range 16).find? (fun k => c.keys k) with
        | some k =>
          if c.prevKeys k = false then
            .ok (Cpu.pcStep { c with
              v := updFn c.v x k
              prevKeys := c.keys })
          else .ok { c with prevKeys := c.keys }
        | none => .ok { c with prevKeys := c.keys }
      | _, _ => .panicked ("unknown opcode: " ++ toString instr)
    | 0x1 =>
      match instr &&& 0xF with
      | 0x5 => .ok (Cpu.pcStep { c with dt := c.dt.set_reg (c.v x) now })
      | 0x8 => .ok (Cpu.pcStep { c with st := c.st.set_reg (c.v x) now })
      | 0xE => .ok (Cpu.pcStep { c with i := (c.i + c.v x) % 65536 })
      | _ => .panicked ("unknown opcode: " ++ toString instr)
    | 0x2 =>
      match instr &&& 0xF with
      | 0x9 => .ok (Cpu.pcStep { c with i := c.v x * 5 })
      | _ => .panicked ("unknown opcode: " ++ toString instr)
    | 0x3 =>
      match instr &&& 0xF with
      | 0x0 => .ok (Cpu.pcStep { c with i := c.v x * 10 + 16 * 5 })
      | 0x3 =>
        if c.i + 3 ≤ 65536 then
          .ok (Cpu.pcStep { c with
            memory := fun a =>
              if a = c.i then c.v x / 100
              else if a = c.i + 1 then (c.v x / 10) % 10
              else if a = c.i + 2 then c.v x % 10
              else c.memory a })
        else .panicked "slice index out of range"
      | _ => .panicked ("unknown opcode: " ++ toString instr)
    | 0x5 =>
      match instr &&& 0xF with
      | 0x5 =>
        if c.i + x + 1 ≤ 65536 then
          .ok (Cpu.pcStep { c with
            memory := fun a =>
              if c.i ≤ a ∧ a < c.i + x + 1 then c.v (a - c.i) else c.memory a })
        else .panicked "slice index out of range"
      | _ => .panicked ("unknown opcode: " ++ toString instr)
    | 0x6 =>
      match instr &&& 0xF with
      | 0x5 =>
        if c.i + x + 1 ≤ 65536 then
          .ok (Cpu.pcStep { c with
            v := fun j => if j < x + 1 then c.memory (c.i + j) else c.v j })
        else .panicked "slice index out of range"
      | _ => .panicked ("unknown opcode: " ++ toString instr)
    | 0x7 =>
      match instr &&& 0xF with
      | 0x5 =>
        if x + 1 ≤ 8 then
          .ok (Cpu.pcStep { c with
            repl := fun j => if j < x + 1 then c.v j else c.repl j })
        else .panicked "slice index out of range"
      | _ => .panicked ("unknown opcode: " ++ toString instr)
    | 0x8 =>
      match instr &&& 0xF with
      | 0x5 =>
        .ok (Cpu.pcStep { c with
          v := fun j => if j < x + 1 then c.memory j else c.v j })
      | _ => .panicked ("unknown opcode: " ++ toString instr)
    | _ => .panicked ("unknown opcode: " ++ toString instr)
  | _ => .panicked ("unknown opcode: " ++ toString instr)

/-- The dispatch-arm coverage of `process_instruction`: `true` exactly for the
nibble patterns the source's `match` names, with the same two-level grouping
as the `process_instruction` transcription; the default arms are the panicking
"unknown opcode" arms. -/
def isKnownOpcode (instr : Nat) : Bool :=
  match (instr >>> 12) &&& 0xF with
  | 0x0 =>
    match (instr >>> 4) &&& 0xF with
    | 0xC =>
      match (instr >>> 8) &&& 0xF with
      | 0x0 => true
      | _ => false
    | 0xD =>
      match (instr >>> 8) &&& 0xF with
      | 0x0 => true
      | _ => false
    | 0xE =>
      match instr &&& 0xF with
      | 0x0 => true
      | 0xE => true
      | _ => false
    | 0xF =>
      match (instr >>> 8) &&& 0xF, instr &&& 0xF with
      | 0x0, 0xB => true
      | 0x0, 0xC => true
      | 0x0, 0xD => true
      | 0x0, 0xE => true
      | 0x0, 0xF => true
      | _, _ => false
    | _ => false
  | 0x1 => true
  | 0x2 => true
  | 0x3 => true
  | 0x4 => true
  | 0x5 =>
    match instr &&& 0xF with
    | 0x0 => true
    | 0x2 => true
    | 0x3 => true
    | _ => false
  | 0x6 => true
  | 0x7 => true
  | 0x8 =>
    match instr &&& 0xF with
    | 0x0 => true
    | 0x1 => true
    | 0x2 => true
    | 0x3 => true
    | 0x4 => true
    | 0x5 => true
    | 0x6 => true
    | 0x7 => true
    | 0xE => true
    | _ => false
  | 0x9 => true
  | 0xA => true
  | 0xB => true
  | 0xC => true
  | 0xD => true
  | 0xE =>
    match (instr >>> 4) &&& 0xF, instr &&& 0xF with
    | 0x9, 0xE => true
    | 0xA, 0x1 => true
    | _, _ => false
  | 0xF =>
    match (instr >>> 4) &&& 0xF with
    | 0x0 =>
      match (instr >>> 8) &&& 0xF, instr &&& 0xF with
      | 0x0, 0x0 => true
      | _, 0x1 => true
      | 0x0, 0x2 => true
      | _, 0x7 => true
      | _, 0xA => true
      | _, _ => false
    | 0x1 =>
      match instr &&& 0xF with
      | 0x5 => true
      | 0x8 => true
      | 0xE => true
      | _ => false
    | 0x2 =>
      match instr &&& 0xF with
      | 0x9 => true
      | _ => false
    | 0x3 =>
      match instr &&& 0xF with
      | 0x0 => true
      | 0x3 => true
      | _ => false
    | 0x5 =>
      match instr &&& 0xF with
      | 0x5 => true
      | _ => false
    | 0x6 =>
      match instr &&& 0xF with
      | 0x5 => true
      | _ => false
    | 0x7 =>
      match instr &&& 0xF with
      | 0x5 => true
      | _ => false
    | 0x8 =>
      match instr &&& 0xF with
      | 0x5 => true
      | _ => false
    | _ => false
  | _ => false

/-- `Cpu::tick` (cpu.rs:450-457): fetch at `pc`, dispatch, count the step, and
return the executed instruction word. -/
def Cpu.tick (c : Cpu) (now : ℚ) (rnd : Nat) : Outcome (Cpu × Nat) :=
  let instr := c.next_instruction
  match c.process_instruction now rnd instr with
  | .ok c1 => .ok ({ c1 with clockSteps := c1.clockSteps + 1 }, instr)
  | .err e => .err e
  | .panicked m => .panicked m

/-- Program counter after a tick, when the tick succeeded. -/
def pcAfter (o : Outcome (Cpu × Nat)) : Option Nat :=
  match o with
  | .ok (c, _) => some c.pc
  | _ => none

/-- Register `j` after a `process_instruction`, when it succeeded. -/
def vAfter (o : Outcome Cpu) (j : Nat) : Option Nat :=
  match o with
  | .ok c => some (c.v j)
  | _ => none

def display0 : Display := Display.new HEIGHT WIDTH

/-- The reset state of `Cpu::default` (cpu.rs:387-406), with empty memory. -/
def cpu0 : Cpu :=
  { display := display0, keys := fun _ => false, prevKeys := fun _ => false,
    soundMemory := fun _ => 0xAA, dt := Timer.new, st := Timer.new,
    memory := fun _ => 0, v := fun _ => 0, pc := 0x200, sp := 0,
    stack := fun _ => 0, i := 0, clockSteps := 0, repl := fun _ => 0 }

theorem tick_pc_of_ok (c c1 : Cpu) (now : ℚ) (rnd : Nat)
    (h : c.process_instruction now rnd c.next_instruction = .ok c1) :
    pcAfter (c.tick now rnd) = some c1.pc := by
  unfold Cpu.tick
  dsimp only
  rw [h]
  rfl

theorem tick_skip_pc (c : Cpu) (hpc : c.pc + 6 < 65536) :
    (Cpu.pcStep c.skip_instruction).pc
      = if read_memory c.memory (c.pc + 2) = 0xF000 then c.pc + 6 else c.pc + 4 := by
  unfold Cpu.pcStep Cpu.skip_instruction Cpu.next_instruction
  dsimp only
  rw [Nat.mod_eq_of_lt (show c.pc + 2 < 65536 by omega)]
  split
  · dsimp only
    omega
  · dsimp only
    omega

theorem tick_plain_pc (c : Cpu) (hpc : c.pc + 2 < 65536) :
    (Cpu.pcStep c).pc = c.pc + 2 := by
  unfold Cpu.pcStep
  exact Nat.mod_eq_of_lt hpc

theorem next_instruction_eq (c : Cpu) {hi lo : Nat} (h1 : c.memory c.pc = hi)
    (h2 : c.memory (c.pc + 1) = lo) (hlo : lo < 256) :
    c.next_instruction = 256 * hi + lo := by
  unfold Cpu.next_instruction read_memory
  rw [h1, h2, hilo_eq hlo]

/-! Evaluation of `process_instruction` on each conditional-skip opcode with
symbolic operand nibbles. -/

theorem process_3xkk (c : Cpu) (now : ℚ) (rnd x kk : Nat) (hx : x < 16)
    (hkk : kk < 256) :
    c.process_instruction now rnd (0x3000 + 256 * x + kk)
      = if c.v x = kk then .ok (Cpu.pcStep c.skip_instruction)
        else .ok (Cpu.pcStep c) := by
  have e0 : ((0x3000 + 256 * x + kk) >>> 12) &&& 0xF = 0x3 := by
    rw [Nat.shiftRight_eq_div_pow]
    have h := Nat.and_pow_two_sub_one_eq_mod ((0x3000 + 256 * x + kk) / 2 ^ 12) 4
    norm_num at h ⊢
    omega
  have e1 : ((0x3000 + 256 * x + kk) >>> 8) &&& 0xF = x := by
    rw [Nat.shiftRight_eq_div_pow]
    have h := Nat.and_pow_two_sub_one_eq_mod ((0x3000 + 256 * x + kk) / 2 ^ 8) 4
    norm_num at h ⊢
    omega
  have e3 : (0x3000 + 256 * x + kk) &&& 0xFF = kk := by
    have h := Nat.and_pow_two_sub_one_eq_mod (0x3000 + 256 * x + kk) 8
    norm_num at h ⊢
    omega
  unfold Cpu.process_instruction
  rw [e0, e1, e3]

theorem process_4xkk (c : Cpu) (now : ℚ) (rnd x kk : Nat) (hx : x < 16)
    (hkk : kk < 256) :
    c.process_instruction now rnd (0x4000 + 256 * x + kk)
      = if c.v x ≠ kk then .ok (Cpu.pcStep c.skip_instruction)
        else .ok (Cpu.pcStep c) := by
  have e0 : ((0x4000 + 256 * x + kk) >>> 12) &&& 0xF = 0x4 := by
    rw [Nat.shiftRight_eq_div_pow]
    have h := Nat.and_pow_two_sub_one_eq_mod ((0x4000 + 256 * x + kk) / 2 ^ 12) 4
    norm_num at h ⊢
    omega
  have e1 : ((0x4000 + 256 * x + kk) >>> 8) &&& 0xF = x := by
    rw [Nat.shiftRight_eq_div_pow]
    have h := Nat.and_pow_two_sub_one_eq_mod ((0x4000 + 256 * x + kk) / 2 ^ 8) 4
    norm_num at h ⊢
    omega
  have e3 : (0x4000 + 256 * x + kk) &&& 0xFF = kk := by
    have h := Nat.and_pow_two_sub_one_eq_mod (0x4000 + 256 * x + kk) 8
    norm_num at h ⊢
    omega
  unfold Cpu.process_instruction
  rw [e0, e1, e3]

theorem process_5xy0 (c : Cpu) (now : ℚ) (rnd x y : Nat) (hx : x < 16)
    (hy : y < 16) :
    c.process_instruction now rnd (0x5000 + 256 * x + 16 * y)
      = if c.v x = c.v y then .ok (Cpu.pcStep c.skip_instruction)
        else .ok (Cpu.pcStep c) := by
  have e0 : ((0x5000 + 256 * x + 16 * y) >>> 12) &&& 0xF = 0x5 := by
    rw [Nat.shiftRight_eq_div_pow]
    have h := Nat.and_pow_two_sub_one_eq_mod ((0x5000 + 256 * x + 16 * y) / 2 ^ 12) 4
    norm_num at h ⊢
    omega
  have e1 : ((0x5000 + 256 * x + 16 * y) >>> 8) &&& 0xF = x := by
    rw [Nat.shiftRight_eq_div_pow]
    have h := Nat.and_pow_two_sub_one_eq_mod ((0x5000 + 256 * x + 16 * y) / 2 ^ 8) 4
    norm_num at h ⊢
    omega
  have e2 : ((0x5000 + 256 * x + 16 * y) >>> 4) &&& 0xF = y := by
    rw [Nat.shiftRight_eq_div_pow]
    have h := Nat.and_pow_two_sub_one_eq_mod ((0x5000 + 256 * x + 16 * y) / 2 ^ 4) 4
    norm_num at h ⊢
    omega
  have e3 : (0x5000 + 256 * x + 16 * y) &&& 0xF = 0x0 := by
    have h := Nat.and_pow_two_sub_one_eq_mod (0x5000 + 256 * x + 16 * y) 4
    norm_num at h ⊢
    omega
  unfold Cpu.process_instruction
  rw [e0, e1, e2, e3]

theorem process_9xy0 (c : Cpu) (now : ℚ) (rnd x y : Nat) (hx : x < 16)
    (hy : y < 16) :
    c.process_instruction now rnd (0x9000 + 256 * x + 16 * y)
      = if c.v x ≠ c.v y then .ok (Cpu.pcStep c.skip_instruction)
        else .ok (Cpu.pcStep c) := by
  have e0 : ((0x9000 + 256 * x + 16 * y) >>> 12) &&& 0xF = 0x9 := by
    rw [Nat.shiftRight_eq_div_pow]
    have h := Nat.and_pow_two_sub_one_eq_mod ((0x9000 + 256 * x + 16 * y) / 2 ^ 12) 4
    norm_num at h ⊢
    omega
  have e1 : ((0x9000 + 256 * x + 16 * y) >>> 8) &&& 0xF = x := by
    rw [Nat.shiftRight_eq_div_pow]
    have h := Nat.and_pow_two_sub_one_eq_mod ((0x9000 + 256 * x + 16 * y) / 2 ^ 8) 4
    norm_num at h ⊢
    omega
  have e2 : ((0x9000 + 256 * x + 16 * y) >>> 4) &&& 0xF = y := by
    rw [Nat.shiftRight_eq_div_pow]
    have h := Nat.and_pow_two_sub_one_eq_mod ((0x9000 + 256 * x + 16 * y) / 2 ^ 4) 4
    norm_num at h ⊢
    omega
  unfold Cpu.process_instruction
  rw [e0, e1, e2]

theorem process_Ex9E (c : Cpu) (now : ℚ) (rnd x : Nat) (hx : x < 16)
    (hv : c.v x < 16) :
    c.process_instruction now rnd (0xE09E + 256 * x)
      = if c.keys (c.v x) = true then .ok (Cpu.pcStep c.skip_instruction)
        else .ok (Cpu.pcStep c) := by
  have e0 : ((0xE09E + 256 * x) >>> 12) &&& 0xF = 0xE := by
    rw [Nat.shiftRight_eq_div_pow]
    have h := Nat.and_pow_two_sub_one_eq_mod ((0xE09E + 256 * x) / 2 ^ 12) 4
    norm_num at h ⊢
    omega
  have e1 : ((0xE09E + 256 * x) >>> 8) &&& 0xF = x := by
    rw [Nat.shiftRight_eq_div_pow]
    have h := Nat.and_pow_two_sub_one_eq_mod ((0xE09E + 256 * x) / 2 ^ 8) 4
    norm_num at h ⊢
    omega
  have e2 : ((0xE09E + 256 * x) >>> 4) &&& 0xF = 0x9 := by
    rw [Nat.shiftRight_eq_div_pow]
    have h := Nat.and_pow_two_sub_one_eq_mod ((0xE09E + 256 * x) / 2 ^ 4) 4
    norm_num at h ⊢
    omega
  have e3 : (0xE09E + 256 * x) &&& 0xF = 0xE := by
    have h := Nat.and_pow_two_sub_one_eq_mod (0xE09E + 256 * x) 4
    norm_num at h ⊢
    omega
  unfold Cpu.process_instruction
  rw [e0, e1, e2, e3]
  show (if c.v x ≤ 15 then
      (if c.keys (c.v x) = true then Outcome.ok (Cpu.pcStep c.skip_instruction)
        else Outcome.ok (Cpu.pcStep c))
    else Outcome.panicked "index out of bounds") = _
  rw [if_pos (show c.v x ≤ 15 by omega)]

theorem process_ExA1 (c : Cpu) (now : ℚ) (rnd x : Nat) (hx : x < 16)
    (hv : c.v x < 16) :
    c.process_instruction now rnd (0xE0A1 + 256 * x)
      = if c.keys (c.v x) = false then .ok (Cpu.pcStep c.skip_instruction)
        else .ok (Cpu.pcStep c) := by
  have e0 : ((0xE0A1 + 256 * x) >>> 12) &&& 0xF = 0xE := by
    rw [Nat.shiftRight_eq_div_pow]
    have h := Nat.and_pow_two_sub_one_eq_mod ((0xE0A1 + 256 * x) / 2 ^ 12) 4
    norm_num at h ⊢
    omega
  have e1 : ((0xE0A1 + 256 * x) >>> 8) &&& 0xF = x := by
    rw [Nat.shiftRight_eq_div_pow]
    have h := Nat.and_pow_two_sub_one_eq_mod ((0xE0A1 + 256 * x) / 2 ^ 8) 4
    norm_num at h ⊢
    omega
  have e2 : ((0xE0A1 + 256 * x) >>> 4) &&& 0xF = 0xA := by
    rw [Nat.shiftRight_eq_div_pow]
    have h := Nat.and_pow_two_sub_one_eq_mod ((0xE0A1 + 256 * x) / 2 ^ 4) 4
    norm_num at h ⊢
    omega
  have e3 : (0xE0A1 + 256 * x) &&& 0xF = 0x1 := by
    have h := Nat.and_pow_two_sub_one_eq_mod (0xE0A1 + 256 * x) 4
    norm_num at h ⊢
    omega
  unfold Cpu.process_instruction
  rw [e0, e1, e2, e3]
  show (if c.v x ≤ 15 then
      (if c.keys (c.v x) = false then Outcome.ok (Cpu.pcStep c.skip_instruction)
        else Outcome.ok (Cpu.pcStep c))
    else Outcome.panicked "index out of bounds") = _
  rw [if_pos (show c.v x ≤ 15 by omega)]

/-- C1: for each conditional-skip opcode — 3xkk, 4xkk, 5xy0, 9xy0, Ex9E,
ExA1 — a `tick` leaves `PC` at `PC+2` when the skip condition fails, at `PC+4`
when it holds and the skipped word is not `0xF000`, and at `PC+6` when it
holds and the skipped instruction is the 4-byte extended-address load
(`0xF000`).  The opcode is given by the two bytes at `PC`; `PC + 6 < 65536`
keeps every fetched address inside memory. -/
theorem C1_conditional_skips (c : Cpu) (now : ℚ) (rnd : Nat) (x y kk : Nat)
    (hx : x < 16) (hy : y < 16) (hkk : kk < 256) (hpc : c.pc + 6 < 65536) :
    ((c.memory c.pc = 0x30 + x ∧ c.memory (c.pc + 1) = kk) →
      pcAfter (c.tick now rnd) = some (if c.v x = kk
        then (if read_memory c.memory (c.pc + 2) = 0xF000 then c.pc + 6 else c.pc + 4)
        else c.pc + 2))
    ∧ ((c.memory c.pc = 0x40 + x ∧ c.memory (c.pc + 1) = kk) →
      pcAfter (c.tick now rnd) = some (if c.v x ≠ kk
        then (if read_memory c.memory (c.pc + 2) = 0xF000 then c.pc + 6 else c.pc + 4)
        else c.pc + 2))
    ∧ ((c.memory c.pc = 0x50 + x ∧ c.memory (c.pc + 1) = 16 * y) →
      pcAfter (c.tick now rnd) = some (if c.v x = c.v y
        then (if read_memory c.memory (c.pc + 2) = 0xF000 then c.pc + 6 else c.pc + 4)
        else c.pc + 2))
    ∧ ((c.memory c.pc = 0x90 + x ∧ c.memory (c.pc + 1) = 16 * y) →
      pcAfter (c.tick now rnd) = some (if c.v x ≠ c.v y
        then (if read_memory c.memory (c.pc + 2) = 0xF000 then c.pc + 6 else c.pc + 4)
        else c.pc + 2))
    ∧ ((c.memory c.pc = 0xE0 + x ∧ c.memory (c.pc + 1) = 0x9E ∧ c.v x < 16) →
      pcAfter (c.tick now rnd) = some (if c.keys (c.v x) = true
        then (if read_memory c.memory (c.pc + 2) = 0xF000 then c.pc + 6 else c.pc + 4)
        else c.pc + 2))
    ∧ ((c.memory c.pc = 0xE0 + x ∧ c.memory (c.pc + 1) = 0xA1 ∧ c.v x < 16) →
      pcAfter (c.tick now rnd) = some (if c.keys (c.v x) = false
        then (if read_memory c.memory (c.pc + 2) = 0xF000 then c.pc + 6 else c.pc + 4)
        else c.pc + 2)) := by
  refine ⟨?_, ?_, ?_, ?_, ?_, ?_⟩
  · rintro ⟨h1, h2⟩
    have hinstr : c.next_instruction = 0x3000 + 256 * x + kk := by
      rw [next_instruction_eq c h1 h2 hkk]
      ring
    have hred := process_3xkk c now rnd x kk hx hkk
    rw [← hinstr] at hred
    by_cases hc : c.v x = kk
    · rw [if_pos hc] at hred
      rw [tick_pc_of_ok c _ now rnd hred, tick_skip_pc c hpc, if_pos hc]
    · rw [if_neg hc] at hred
      rw [tick_pc_of_ok c _ now rnd hred, tick_plain_pc c (by omega), if_neg hc]
  · rintro ⟨h1, h2⟩
    have hinstr : c.next_instruction = 0x4000 + 256 * x + kk := by
      rw [next_instruction_eq c h1 h2 hkk]
      ring
    have hred := process_4xkk c now rnd x kk hx hkk
    rw [← hinstr] at hred
    by_cases hc : c.v x = kk
    · rw [if_neg (not_not_intro hc)] at hred
      rw [tick_pc_of_ok c _ now rnd hred, tick_plain_pc c (by omega),
        if_neg (not_not_intro hc)]
    · rw [if_pos hc] at hred
      rw [tick_pc_of_ok c _ now rnd hred, tick_skip_pc c hpc, if_pos hc]
  · rintro ⟨h1, h2⟩
    have hinstr : c.next_instruction = 0x5000 + 256 * x + 16 * y := by
      rw [next_instruction_eq c h1 h2 (by omega)]
      ring
    have hred := process_5xy0 c now rnd x y hx hy
    rw [← hinstr] at hred
    by_cases hc : c.v x = c.v y
    · rw [if_pos hc] at hred
      rw [tick_pc_of_ok c _ now rnd hred, tick_skip_pc c hpc, if_pos hc]
    · rw [if_neg hc] at hred
      rw [tick_pc_of_ok c _ now rnd hred, tick_plain_pc c (by omega), if_neg hc]
  · rintro ⟨h1, h2⟩
    have hinstr : c.next_instruction = 0x9000 + 256 * x + 16 * y := by
      rw [next_instruction_eq c h1 h2 (by omega)]
      ring
    have hred := process_9xy0 c now rnd x y hx hy
    rw [← hinstr] at hred
    by_cases hc : c.v x = c.v y
    · rw [if_neg (not_not_intro hc)] at hred
      rw [tick_pc_of_ok c _ now rnd hred, tick_plain_pc c (by omega),
        if_neg (not_not_intro hc)]
    · rw [if_pos hc] at hred
      rw [tick_pc_of_ok c _ now rnd hred, tick_skip_pc c hpc, if_pos hc]
  · rintro ⟨h1, h2, hv⟩
    have hinstr : c.next_instruction = 0xE09E + 256 * x := by
      rw [next_instruction_eq c h1 h2 (by omega)]
      ring
    have hred := process_Ex9E c now rnd x hx hv
    rw [← hinstr] at hred
    by_cases hc : c.keys (c.v x) = true
    · rw [if_pos hc] at hred
      rw [tick_pc_of_ok c _ now rnd hred, tick_skip_pc c hpc, if_pos hc]
    · rw [if_neg hc] at hred
      rw [tick_pc_of_ok c _ now rnd hred, tick_plain_pc c (by omega), if_neg hc]
  · rintro ⟨h1, h2, hv⟩
    have hinstr : c.next_instruction = 0xE0A1 + 256 * x := by
      rw [next_instruction_eq c h1 h2 (by omega)]
      ring
    have hred := process_ExA1 c now rnd x hx hv
    rw [← hinstr] at hred
    by_cases hc : c.keys (c.v x) = false
    · rw [if_pos hc] at hred
      rw [tick_pc_of_ok c _ now rnd hred, tick_skip_pc c hpc, if_pos hc]
    · rw [if_neg hc] at hred
      rw [tick_pc_of_ok c _ now rnd hred, tick_plain_pc c (by omega), if_neg hc]

/-- Cpu used by the C1 witness: `SE V5, 0` at `0x200` with `V5 = 0`, so the
skip is taken, and the skipped word at `0x202` is `0x0000` (not `F000`). -/
def cpuC1 : Cpu :=
  { cpu0 with memory := fun a => if a = 0x200 then 0x35 else 0 }

/-- C1 witness: the taken skip over a non-`F000` word advances `PC` from
`0x200` to `0x204`. -/
theorem C1_witness : pcAfter (cpuC1.tick 0 0) = some 0x204 := by
  have h := (C1_conditional_skips cpuC1 0 0 5 0 0 (by decide) (by decide) (by decide)
    (by decide)).1 ⟨rfl, rfl⟩
  rw [h]
  decide

/-- C2 counterexample: on an unrecognised instruction word the engine does not
surface a structured recoverable error carrying the program counter — it
panics.  Concretely, ticking the reset CPU (all memory zero, so the fetched
word `0x0000` matches no opcode) yields `Outcome.panicked` whose message names
only the opcode (`"unknown opcode: 0"`, no PC), and `isErr` is `false`: the
`anyhow`-error channel that `tick` propagates is never used for decode
failures. -/
theorem C2_counterexample :
    cpu0.tick 0 0 = .panicked ("unknown opcode: " ++ toString 0) ∧
      (cpu0.tick 0 0).isErr = false := by
  constructor
  · rfl
  · rfl

set_option maxHeartbeats 2000000 in
/-- C2: (amended) for every instruction word that matches no known opcode
pattern, `process_instruction` halts the engine by panicking with the message
`"unknown opcode: <instr>"`; the instruction is never silently skipped (no
`.ok` continuation), but the failure is a Rust panic whose message identifies
only the opcode, not a structured error carrying the program counter. -/
theorem C2_amended (c : Cpu) (now : ℚ) (rnd : Nat) (instr : Nat)
    (h : isKnownOpcode instr = false) :
    c.process_instruction now rnd instr
      = .panicked ("unknown opcode: " ++ toString instr) := by
  unfold isKnownOpcode at h
  unfold Cpu.process_instruction
  dsimp only
  split at h
  all_goals try exact absurd h (by decide)
  all_goals try split at h
  all_goals try exact absurd h (by decide)
  all_goals try split at h
  all_goals try exact absurd h (by decide)
  all_goals rfl

/-- C2 witness: `0x5001` matches no opcode (the `5xy_` group only accepts
final nibbles 0, 2 and 3), and processing it panics with the opcode in the
message. -/
theorem C2_witness :
    isKnownOpcode 0x5001 = false ∧
      cpu0.process_instruction 0 0 0x5001
        = .panicked ("unknown opcode: " ++ toString 0x5001) :=
  ⟨by decide, C2_amended cpu0 0 0 0x5001 (by decide)⟩

/-- Reduction of the SHR opcode `8xy6` (cpu.rs:598-606): the shifted-out bit
is read from `v[y]` into a local before either write; `v[x]` is written first,
the flag `v[0xF]` last. -/
theorem process_8xy6 (c : Cpu) (now : ℚ) (rnd x y : Nat) (hx : x < 16)
    (hy : y < 16) :
    c.process_instruction now rnd (0x8006 + 256 * x + 16 * y)
      = .ok (Cpu.pcStep { c with
          v := updFn (updFn c.v x (c.v y >>> 1)) 0xF (c.v y &&& 0x1) }) := by
  have e0 : ((0x8006 + 256 * x + 16 * y) >>> 12) &&& 0xF = 0x8 := by
    rw [Nat.shiftRight_eq_div_pow]
    have h := Nat.and_pow_two_sub_one_eq_mod ((0x8006 + 256 * x + 16 * y) / 2 ^ 12) 4
    norm_num at h ⊢
    omega
  have e1 : ((0x8006 + 256 * x + 16 * y) >>> 8) &&& 0xF = x := by
    rw [Nat.shiftRight_eq_div_pow]
    have h := Nat.and_pow_two_sub_one_eq_mod ((0x8006 + 256 * x + 16 * y) / 2 ^ 8) 4
    norm_num at h ⊢
    omega
  have e2 : ((0x8006 + 256 * x + 16 * y) >>> 4) &&& 0xF = y := by
    rw [Nat.shiftRight_eq_div_pow]
    have h := Nat.and_pow_two_sub_one_eq_mod ((0x8006 + 256 * x + 16 * y) / 2 ^ 4) 4
    norm_num at h ⊢
    omega
  have e3 : (0x8006 + 256 * x + 16 * y) &&& 0xF = 0x6 := by
    have h := Nat.and_pow_two_sub_one_eq_mod (0x8006 + 256 * x + 16 * y) 4
    norm_num at h ⊢
    omega
  unfold Cpu.process_instruction
  rw [e0, e3, e1, e2]

/-- Reduction of the SHL opcode `8xyE` (cpu.rs:619-627): the flag `v[0xF]` is
written before `v[x]`, and `v[y]` is read again for the second write, so both
writes observe the flag update when the indices alias `0xF`. -/
theorem process_8xyE (c : Cpu) (now : ℚ) (rnd x y : Nat) (hx : x < 16)
    (hy : y < 16) :
    c.process_instruction now rnd (0x800E + 256 * x + 16 * y)
      = .ok (Cpu.pcStep { c with
          v := updFn (updFn c.v 0xF ((c.v y >>> 7) &&& 0x1)) x
            ((updFn c.v 0xF ((c.v y >>> 7) &&& 0x1) y <<< 1) % 256) }) := by
  have e0 : ((0x800E + 256 * x + 16 * y) >>> 12) &&& 0xF = 0x8 := by
    rw [Nat.shiftRight_eq_div_pow]
    have h := Nat.and_pow_two_sub_one_eq_mod ((0x800E + 256 * x + 16 * y) / 2 ^ 12) 4
    norm_num at h ⊢
    omega
  have e1 : ((0x800E + 256 * x + 16 * y) >>> 8) &&& 0xF = x := by
    rw [Nat.shiftRight_eq_div_pow]
    have h := Nat.and_pow_two_sub_one_eq_mod ((0x800E + 256 * x + 16 * y) / 2 ^ 8) 4
    norm_num at h ⊢
    omega
  have e2 : ((0x800E + 256 * x + 16 * y) >>> 4) &&& 0xF = y := by
    rw [Nat.shiftRight_eq_div_pow]
    have h := Nat.and_pow_two_sub_one_eq_mod ((0x800E + 256 * x + 16 * y) / 2 ^ 4) 4
    norm_num at h ⊢
    omega
  have e3 : (0x800E + 256 * x + 16 * y) &&& 0xF = 0xE := by
    have h := Nat.and_pow_two_sub_one_eq_mod (0x800E + 256 * x + 16 * y) 4
    norm_num at h ⊢
    omega
  unfold Cpu.process_instruction
  rw [e0, e3, e1, e2]

/-- Cpu used by the C8 counterexample and witness: `V[0xF] = 0xFF`,
`V1 = 6`, every other register zero. -/
def cpuC8 : Cpu :=
  { cpu0 with v := fun j => if j = 0xF then 0xFF else if j = 1 then 6 else 0 }

/-- C8 counterexample: for `8FFE` (SHL with `x = y = 0xF`) the destination and
the flag are the same register, and the flag write happens first, so the final
`V[0xF]` is `((old_flag >> 7) << 1) = 2` — neither `Vy` shifted left
(`0xFF << 1 = 0xFE mod 256`) nor the shifted-out bit (`1`), refuting the
claim's unconditional "Vx receives Vy shifted by one and V[0xF] holds the bit
shifted out". -/
theorem C8_counterexample :
    vAfter (cpuC8.process_instruction 0 0 0x8FFE) 0xF = some 2 ∧
      (2 : Nat) ≠ (cpuC8.v 0xF <<< 1) % 256 ∧
      (2 : Nat) ≠ (cpuC8.v 0xF >>> 7) &&& 0x1 := by
  refine ⟨by decide, by decide, by decide⟩

/-- C8: (amended) the shift opcodes `8xy6`/`8xyE` operate on the second
operand register `Vy` as claimed, but only away from the flag register: for
SHR the flag always ends up holding `Vy & 1` (the flag write is last), while
the destination receives `Vy >> 1` only when `x ≠ 0xF`; for SHL the
destination receives `(Vy << 1) mod 256` only when `y ≠ 0xF` (the flag is
written first, and is re-read as `Vy` when `y = 0xF`), and the flag holds
`(Vy >> 7) & 1` only when `x ≠ 0xF` (otherwise the destination write
overwrites it). -/
theorem C8_shift (c : Cpu) (now : ℚ) (rnd : Nat) (x y : Nat) (hx : x < 16)
    (hy : y < 16) :
    (vAfter (c.process_instruction now rnd (0x8006 + 256 * x + 16 * y)) 0xF
        = some (c.v y &&& 0x1)) ∧
    (x ≠ 0xF → vAfter (c.process_instruction now rnd (0x8006 + 256 * x + 16 * y)) x
        = some (c.v y >>> 1)) ∧
    (y ≠ 0xF → vAfter (c.process_instruction now rnd (0x800E + 256 * x + 16 * y)) x
        = some ((c.v y <<< 1) % 256)) ∧
    (x ≠ 0xF → vAfter (c.process_instruction now rnd (0x800E + 256 * x + 16 * y)) 0xF
        = some ((c.v y >>> 7) &&& 0x1)) := by
  rw [process_8xy6 c now rnd x y hx hy, process_8xyE c now rnd x y hx hy]
  refine ⟨?_, fun hxne => ?_, fun hyne => ?_, fun hxne => ?_⟩
  · simp [vAfter, Cpu.pcStep, updFn]
  · simp [vAfter, Cpu.pcStep, updFn, hxne]
  · simp [vAfter, Cpu.pcStep, updFn, hyne]
  · simp [vAfter, Cpu.pcStep, updFn, hxne, Ne.symm hxne]

/-- C8 witness: on `cpuC8` with `x = 0`, `y = 1` (`V1 = 6`): SHR gives
`V0 = 3`, flag `0`; SHL gives `V0 = 12`, flag `0`. -/
theorem C8_witness :
    vAfter (cpuC8.process_instruction 0 0 (0x8006 + 256 * 0 + 16 * 1)) 0xF = some 0 ∧
      vAfter (cpuC8.process_instruction 0 0 (0x8006 + 256 * 0 + 16 * 1)) 0 = some 3 ∧
      vAfter (cpuC8.process_instruction 0 0 (0x800E + 256 * 0 + 16 * 1)) 0 = some 12 ∧
      vAfter (cpuC8.process_instruction 0 0 (0x800E + 256 * 0 + 16 * 1)) 0xF = some 0 := by
  obtain ⟨h1, h2, h3, h4⟩ := C8_shift cpuC8 0 0 0 1 (by decide) (by decide)
  refine ⟨by rw [h1]; decide, by rw [h2 (by decide)]; decide,
    by rw [h3 (by decide)]; decide, by rw [h4 (by decide)]; decide⟩

/-- Memory cell `a` after a `process_instruction`, when it succeeded. -/
def memAfter (o : Outcome Cpu) (a : Nat) : Option Nat :=
  match o with
  | .ok c => some (c.memory a)
  | _ => none

/-- Program counter after a `process_instruction`, when it succeeded. -/
def pcOf (o : Outcome Cpu) : Option Nat :=
  match o with
  | .ok c => some c.pc
  | _ => none

/-- Reduction of the block store `5xy2` (cpu.rs:536-543) under the release
profile: `let range = y - x` wraps in `usize`, the slice bound `i + range + 1`
wraps again, and `memory[i..bound]` receives `v[x..y+1]` when the slices are
valid and of equal length. -/
theorem process_5xy2 (c : Cpu) (now : ℚ) (rnd x y : Nat) (hx : x < 16)
    (hy : y < 16) :
    c.process_instruction now rnd (0x5002 + 256 * x + 16 * y)
      = (let range := (y + (18446744073709551616 - x)) % 18446744073709551616
         let endB := (c.i + range + 1) % 18446744073709551616
         if c.i ≤ endB ∧ endB ≤ 65536 then
           if x ≤ y + 1 then
             if endB - c.i = y + 1 - x then
               .ok (Cpu.pcStep { c with
                 memory := fun a =>
                   if c.i ≤ a ∧ a < endB then c.v (x + (a - c.i)) else c.memory a })
             else .panicked "source slice length does not match destination slice length"
           else .panicked "slice index out of range"
         else .panicked "slice index out of range") := by
  have e0 : ((0x5002 + 256 * x + 16 * y) >>> 12) &&& 0xF = 0x5 := by
    rw [Nat.shiftRight_eq_div_pow]
    have h := Nat.and_pow_two_sub_one_eq_mod ((0x5002 + 256 * x + 16 * y) / 2 ^ 12) 4
    norm_num at h ⊢
    omega
  have e1 : ((0x5002 + 256 * x + 16 * y) >>> 8) &&& 0xF = x := by
    rw [Nat.shiftRight_eq_div_pow]
    have h := Nat.and_pow_two_sub_one_eq_mod ((0x5002 + 256 * x + 16 * y) / 2 ^ 8) 4
    norm_num at h ⊢
    omega
  have e2 : ((0x5002 + 256 * x + 16 * y) >>> 4) &&& 0xF = y := by
    rw [Nat.shiftRight_eq_div_pow]
    have h := Nat.and_pow_two_sub_one_eq_mod ((0x5002 + 256 * x + 16 * y) / 2 ^ 4) 4
    norm_num at h ⊢
    omega
  have e3 : (0x5002 + 256 * x + 16 * y) &&& 0xF = 0x2 := by
    have h := Nat.and_pow_two_sub_one_eq_mod (0x5002 + 256 * x + 16 * y) 4
    norm_num at h ⊢
    omega
  unfold Cpu.process_instruction
  rw [e0, e3, e1, e2]

/-- Reduction of the block load `5xy3` (cpu.rs:544-551) under the release
profile: same wrapped bounds as `5xy2`, with `v[x..y+1]` receiving
`memory[i..bound]`. -/
theorem process_5xy3 (c : Cpu) (now : ℚ) (rnd x y : Nat) (hx : x < 16)
    (hy : y < 16) :
    c.process_instruction now rnd (0x5003 + 256 * x + 16 * y)
      = (let range := (y + (18446744073709551616 - x)) % 18446744073709551616
         let endB := (c.i + range + 1) % 18446744073709551616
         if c.i ≤ endB ∧ endB ≤ 65536 then
           if x ≤ y + 1 then
             if endB - c.i = y + 1 - x then
               .ok (Cpu.pcStep { c with
                 v := fun j => if x ≤ j ∧ j ≤ y then c.memory (c.i + (j - x)) else c.v j })
             else .panicked "source slice length does not match destination slice length"
           else .panicked "slice index out of range"
         else .panicked "slice index out of range") := by
  have e0 : ((0x5003 + 256 * x + 16 * y) >>> 12) &&& 0xF = 0x5 := by
    rw [Nat.shiftRight_eq_div_pow]
    have h := Nat.and_pow_two_sub_one_eq_mod ((0x5003 + 256 * x + 16 * y) / 2 ^ 12) 4
    norm_num at h ⊢
    omega
  have e1 : ((0x5003 + 256 * x + 16 * y) >>> 8) &&& 0xF = x := by
    rw [Nat.shiftRight_eq_div_pow]
    have h := Nat.and_pow_two_sub_one_eq_mod ((0x5003 + 256 * x + 16 * y) / 2 ^ 8) 4
    norm_num at h ⊢
    omega
  have e2 : ((0x5003 + 256 * x + 16 * y) >>> 4) &&& 0xF = y := by
    rw [Nat.shiftRight_eq_div_pow]
    have h := Nat.and_pow_two_sub_one_eq_mod ((0x5003 + 256 * x + 16 * y) / 2 ^ 4) 4
    norm_num at h ⊢
    omega
  have e3 : (0x5003 + 256 * x + 16 * y) &&& 0xF = 0x3 := by
    have h := Nat.and_pow_two_sub_one_eq_mod (0x5003 + 256 * x + 16 * y) 4
    norm_num at h ⊢
    omega
  unfold Cpu.process_instruction
  rw [e0, e3, e1, e2]

/-- Cpu used by the C9 counterexample and witness: `I = 0x300`, `V2 = 5`,
`V3 = 9`, memory filled with `0x40 + address mod 16`. -/
def cpuC9 : Cpu :=
  { cpu0 with
    i := 0x300
    v := fun j => if j = 2 then 5 else if j = 3 then 9 else 0
    memory := fun a => 0x40 + a % 16 }

/-- C9 counterexample: with the indices "in the other order" the block
transfers never copy the reversed range.  For `x = 3, y = 2` (opcode `5322`)
the wrapped `y - x` makes `i + range + 1` wrap back to `i`, so the copy is the
empty slice `memory[i..i] ← v[x..x]`: the instruction succeeds, memory keeps
`0x40` at `I` (neither `V2 = 5` nor `V3 = 9` is stored anywhere) and `PC`
silently advances to `0x202`.  For `x = 4, y = 2` (opcode `5422`) the wrapped
bound `i - 1` lies before `i` and the slice operation panics. -/
theorem C9_counterexample :
    (cpuC9.process_instruction 0 0 (0x5002 + 256 * 3 + 16 * 2)).isOk = true ∧
      memAfter (cpuC9.process_instruction 0 0 (0x5002 + 256 * 3 + 16 * 2)) cpuC9.i
        = some 0x40 ∧
      cpuC9.v 2 = 5 ∧ cpuC9.v 3 = 9 ∧
      pcOf (cpuC9.process_instruction 0 0 (0x5002 + 256 * 3 + 16 * 2)) = some 0x202 ∧
      cpuC9.process_instruction 0 0 (0x5002 + 256 * 4 + 16 * 2)
        = .panicked "slice index out of range" := by
  refine ⟨by decide, by decide, by decide, by decide, by decide, rfl⟩

/-- C9: (amended) the block transfers `5xy2`/`5xy3` copy the inclusive
register range only for `x ≤ y` (given the slice fits in memory): `5xy2`
stores `V[x+k]` at `I+k` for `0 ≤ k ≤ y-x` leaving other memory and all
registers untouched, and `5xy3` loads `V[x+k]` from `I+k` leaving other
registers and all memory untouched.  The indices do not work in either order:
under the release profile `y - x` wraps in `usize`, so for `x = y + 1` the
slice bound wraps back to `I` and both opcodes are silent no-ops that only
advance `PC`, and for `y + 1 < x` the wrapped bound is invalid and both
opcodes panic; a reversed-range copy never happens. -/
theorem C9_block_transfer (c : Cpu) (now : ℚ) (rnd x y : Nat) (hx : x < 16)
    (hy : y < 16) :
    (x ≤ y → c.i + (y - x) + 1 ≤ 65536 →
      (∀ k, k ≤ y - x →
        memAfter (c.process_instruction now rnd (0x5002 + 256 * x + 16 * y)) (c.i + k)
          = some (c.v (x + k))) ∧
      (∀ a, a < c.i ∨ c.i + (y - x) + 1 ≤ a →
        memAfter (c.process_instruction now rnd (0x5002 + 256 * x + 16 * y)) a
          = some (c.memory a)) ∧
      (∀ j, vAfter (c.process_instruction now rnd (0x5002 + 256 * x + 16 * y)) j
          = some (c.v j)) ∧
      (∀ k, k ≤ y - x →
        vAfter (c.process_instruction now rnd (0x5003 + 256 * x + 16 * y)) (x + k)
          = some (c.memory (c.i + k))) ∧
      (∀ j, j < x ∨ y < j →
        vAfter (c.process_instruction now rnd (0x5003 + 256 * x + 16 * y)) j
          = some (c.v j)) ∧
      (∀ a, memAfter (c.process_instruction now rnd (0x5003 + 256 * x + 16 * y)) a
          = some (c.memory a))) ∧
    (x = y + 1 → c.i < 65536 →
      (∀ a, memAfter (c.process_instruction now rnd (0x5002 + 256 * x + 16 * y)) a
          = some (c.memory a)) ∧
      (∀ j, vAfter (c.process_instruction now rnd (0x5002 + 256 * x + 16 * y)) j
          = some (c.v j)) ∧
      pcOf (c.process_instruction now rnd (0x5002 + 256 * x + 16 * y))
          = some ((c.pc + 2) % 65536) ∧
      (∀ j, vAfter (c.process_instruction now rnd (0x5003 + 256 * x + 16 * y)) j
          = some (c.v j)) ∧
      (∀ a, memAfter (c.process_instruction now rnd (0x5003 + 256 * x + 16 * y)) a
          = some (c.memory a)) ∧
      pcOf (c.process_instruction now rnd (0x5003 + 256 * x + 16 * y))
          = some ((c.pc + 2) % 65536)) ∧
    (y + 1 < x →
      (c.process_instruction now rnd (0x5002 + 256 * x + 16 * y)).isOk = false ∧
      (c.process_instruction now rnd (0x5003 + 256 * x + 16 * y)).isOk = false) := by
  refine ⟨?_, ?_, ?_⟩
  · intro hxy hfit
    have er : (y + (18446744073709551616 - x)) % 18446744073709551616 = y - x := by
      omega
    have ee : (c.i + (y - x) + 1) % 18446744073709551616 = c.i + (y - x) + 1 := by
      omega
    have h2 : c.process_instruction now rnd (0x5002 + 256 * x + 16 * y)
        = .ok (Cpu.pcStep { c with
            memory := fun a =>
              if c.i ≤ a ∧ a < c.i + (y - x) + 1 then c.v (x + (a - c.i))
              else c.memory a }) := by
      rw [process_5xy2 c now rnd x y hx hy]
      dsimp only
      rw [er, ee, if_pos ⟨by omega, by omega⟩, if_pos (by omega), if_pos (by omega)]
    have h3 : c.process_instruction now rnd (0x5003 + 256 * x + 16 * y)
        = .ok (Cpu.pcStep { c with
            v := fun j => if x ≤ j ∧ j ≤ y then c.memory (c.i + (j - x)) else c.v j }) := by
      rw [process_5xy3 c now rnd x y hx hy]
      dsimp only
      rw [er, ee, if_pos ⟨by omega, by omega⟩, if_pos (by omega), if_pos (by omega)]
    rw [h2, h3]
    refine ⟨fun k hk => ?_, fun a ha => ?_, fun j => ?_, fun k hk => ?_,
      fun j hj => ?_, fun a => ?_⟩
    · simp only [memAfter, Cpu.pcStep]
      rw [if_pos ⟨by omega, by omega⟩]
      have hkk : c.i + k - c.i = k := by omega
      rw [hkk]
    · simp only [memAfter, Cpu.pcStep]
      rw [if_neg (by omega)]
    · simp only [vAfter, Cpu.pcStep]
    · simp only [vAfter, Cpu.pcStep]
      rw [if_pos ⟨by omega, by omega⟩]
      have hkk : x + k - x = k := by omega
      rw [hkk]
    · simp only [vAfter, Cpu.pcStep]
      rw [if_neg (by omega)]
    · simp only [memAfter, Cpu.pcStep]
  · intro hxy1 hi
    subst hxy1
    have er : (y + (18446744073709551616 - (y + 1))) % 18446744073709551616
        = 18446744073709551615 := by omega
    have ee : (c.i + 18446744073709551615 + 1) % 18446744073709551616 = c.i := by
      omega
    have h2 : c.process_instruction now rnd (0x5002 + 256 * (y + 1) + 16 * y)
        = .ok (Cpu.pcStep { c with
            memory := fun a =>
              if c.i ≤ a ∧ a < c.i then c.v (y + 1 + (a - c.i)) else c.memory a }) := by
      rw [process_5xy2 c now rnd (y + 1) y (by omega) hy]
      dsimp only
      rw [er, ee, if_pos ⟨le_refl _, by omega⟩, if_pos (by omega), if_pos (by omega)]
    have h3 : c.process_instruction now rnd (0x5003 + 256 * (y + 1) + 16 * y)
        = .ok (Cpu.pcStep { c with
            v := fun j =>
              if y + 1 ≤ j ∧ j ≤ y then c.memory (c.i + (j - (y + 1))) else c.v j }) := by
      rw [process_5xy3 c now rnd (y + 1) y (by omega) hy]
      dsimp only
      rw [er, ee, if_pos ⟨le_refl _, by omega⟩, if_pos (by omega), if_pos (by omega)]
    rw [h2, h3]
    refine ⟨fun a => ?_, fun j => rfl, rfl, fun j => ?_, fun a => rfl, rfl⟩
    · simp only [memAfter, Cpu.pcStep]
      rw [if_neg (by omega)]
    · simp only [vAfter, Cpu.pcStep]
      rw [if_neg (by omega)]
  · intro hxy2
    rw [process_5xy2 c now rnd x y hx hy, process_5xy3 c now rnd x y hx hy]
    dsimp only
    exact ⟨by rw [if_neg (by omega)]; rfl, by rw [if_neg (by omega)]; rfl⟩

/-- C9 witness: on `cpuC9` with `x = 2 ≤ y = 3`: `5232` stores `V2 = 5` at
`I` and `V3 = 9` at `I+1` leaving `I+2` alone, and `5233` loads
`V2 = memory[I] = 0x40`, leaving `V1` alone; and for `x = 3 = y + 1` the
wrapped-empty-slice case leaves `V2 = 5` untouched. -/
theorem C9_witness :
    memAfter (cpuC9.process_instruction 0 0 (0x5002 + 256 * 2 + 16 * 3)) (cpuC9.i + 0)
        = some 5 ∧
      memAfter (cpuC9.process_instruction 0 0 (0x5002 + 256 * 2 + 16 * 3)) (cpuC9.i + 1)
        = some 9 ∧
      memAfter (cpuC9.process_instruction 0 0 (0x5002 + 256 * 2 + 16 * 3)) 0x302
        = some 0x42 ∧
      vAfter (cpuC9.process_instruction 0 0 (0x5003 + 256 * 2 + 16 * 3)) (2 + 0)
        = some 0x40 ∧
      vAfter (cpuC9.process_instruction 0 0 (0x5003 + 256 * 2 + 16 * 3)) 1
        = some 0 ∧
      vAfter (cpuC9.process_instruction 0 0 (0x5003 + 256 * 3 + 16 * 2)) 2
        = some 5 := by
  obtain ⟨h1, h2, h3, h4, h5, h6⟩ :=
    (C9_block_transfer cpuC9 0 0 2 3 (by decide) (by decide)).1 (by decide) (by decide)
  have hnoop :=
    ((C9_block_transfer cpuC9 0 0 3 2 (by decide) (by decide)).2.1 (by decide)
      (by decide)).2.2.2.1 2
  refine ⟨by rw [h1 0 (by decide)]; decide, by rw [h1 1 (by decide)]; decide,
    ?_, by rw [h4 0 (by decide)]; decide, by rw [h5 1 (by decide)]; decide,
    by rw [hnoop]; decide⟩
  have h := h2 0x302 (Or.inr (by decide))
  rw [h]
  decide

/-- Reduction of `Fx75` (cpu.rs:765-769): `repl[0..x+1]` receives
`v[0..x+1]`; the `repl` array has 8 slots, so `x ≥ 8` panics. -/
theorem process_Fx75 (c : Cpu) (now : ℚ) (rnd x : Nat) (hx : x < 16) :
    c.process_instruction now rnd (0xF075 + 256 * x)
      = if x + 1 ≤ 8 then
          .ok (Cpu.pcStep { c with
            repl := fun j => if j < x + 1 then c.v j else c.repl j })
        else .panicked "slice index out of range" := by
  have e0 : ((0xF075 + 256 * x) >>> 12) &&& 0xF = 0xF := by
    rw [Nat.shiftRight_eq_div_pow]
    have h := Nat.and_pow_two_sub_one_eq_mod ((0xF075 + 256 * x) / 2 ^ 12) 4
    norm_num at h ⊢
    omega
  have e1 : ((0xF075 + 256 * x) >>> 8) &&& 0xF = x := by
    rw [Nat.shiftRight_eq_div_pow]
    have h := Nat.and_pow_two_sub_one_eq_mod ((0xF075 + 256 * x) / 2 ^ 8) 4
    norm_num at h ⊢
    omega
  have e2 : ((0xF075 + 256 * x) >>> 4) &&& 0xF = 0x7 := by
    rw [Nat.shiftRight_eq_div_pow]
    have h := Nat.and_pow_two_sub_one_eq_mod ((0xF075 + 256 * x) / 2 ^ 4) 4
    norm_num at h ⊢
    omega
  have e3 : (0xF075 + 256 * x) &&& 0xF = 0x5 := by
    have h := Nat.and_pow_two_sub_one_eq_mod (0xF075 + 256 * x) 4
    norm_num at h ⊢
    omega
  unfold Cpu.process_instruction
  rw [e0, e2, e3, e1]

/-- Reduction of `Fx85` (cpu.rs:770-774): `v[0..x+1]` receives
`memory[0..x+1]` — the source slices `self.memory`, not `self.repl`. -/
theorem process_Fx85 (c : Cpu) (now : ℚ) (rnd x : Nat) (hx : x < 16) :
    c.process_instruction now rnd (0xF085 + 256 * x)
      = .ok (Cpu.pcStep { c with
          v := fun j => if j < x + 1 then c.memory j else c.v j }) := by
  have e0 : ((0xF085 + 256 * x) >>> 12) &&& 0xF = 0xF := by
    rw [Nat.shiftRight_eq_div_pow]
    have h := Nat.and_pow_two_sub_one_eq_mod ((0xF085 + 256 * x) / 2 ^ 12) 4
    norm_num at h ⊢
    omega
  have e1 : ((0xF085 + 256 * x) >>> 8) &&& 0xF = x := by
    rw [Nat.shiftRight_eq_div_pow]
    have h := Nat.and_pow_two_sub_one_eq_mod ((0xF085 + 256 * x) / 2 ^ 8) 4
    norm_num at h ⊢
    omega
  have e2 : ((0xF085 + 256 * x) >>> 4) &&& 0xF = 0x8 := by
    rw [Nat.shiftRight_eq_div_pow]
    have h := Nat.and_pow_two_sub_one_eq_mod ((0xF085 + 256 * x) / 2 ^ 4) 4
    norm_num at h ⊢
    omega
  have e3 : (0xF085 + 256 * x) &&& 0xF = 0x5 := by
    have h := Nat.and_pow_two_sub_one_eq_mod (0xF085 + 256 * x) 4
    norm_num at h ⊢
    omega
  unfold Cpu.process_instruction
  rw [e0, e2, e3, e1]

/-- C10: `Fx85` sets `V0..Vx` to `memory[0..x]` (the font-glyph region of a
freshly initialised CPU), leaves the higher registers alone, and its register
outcome is independent of the `repl` array (it never reads it); consequently
`Fx75` (for `x < 8`, where it succeeds) followed by `Fx85` leaves `V0..Vx`
equal to `memory[0..x]`, not the values `Fx75` saved. -/
theorem C10_fx85 (c : Cpu) (now : ℚ) (rnd x : Nat) (hx : x < 16) :
    (∀ j, j ≤ x → vAfter (c.process_instruction now rnd (0xF085 + 256 * x)) j
        = some (c.memory j)) ∧
    (∀ j, x < j → vAfter (c.process_instruction now rnd (0xF085 + 256 * x)) j
        = some (c.v j)) ∧
    (∀ rp j,
      vAfter (({ c with repl := rp }).process_instruction now rnd (0xF085 + 256 * x)) j
        = vAfter (c.process_instruction now rnd (0xF085 + 256 * x)) j) ∧
    (x < 8 → ∀ c1, c.process_instruction now rnd (0xF075 + 256 * x) = .ok c1 →
      ∀ j, j ≤ x → vAfter (c1.process_instruction now rnd (0xF085 + 256 * x)) j
        = some (c.memory j)) := by
  refine ⟨fun j hj => ?_, fun j hj => ?_, fun rp j => ?_, fun h8 c1 hc1 j hj => ?_⟩
  · rw [process_Fx85 c now rnd x hx]
    simp only [vAfter, Cpu.pcStep]
    rw [if_pos (by omega)]
  · rw [process_Fx85 c now rnd x hx]
    simp only [vAfter, Cpu.pcStep]
    rw [if_neg (by omega)]
  · rw [process_Fx85 c now rnd x hx, process_Fx85 { c with repl := rp } now rnd x hx]
    rfl
  · rw [process_Fx75 c now rnd x hx, if_pos (by omega)] at hc1
    injection hc1 with hc1
    rw [← hc1, process_Fx85 _ now rnd x hx]
    simp only [vAfter, Cpu.pcStep]
    rw [if_pos (by omega)]

/-- Cpu used by the C10 witness: `V0 = 7`, memory all zero. -/
def cpuC10 : Cpu :=
  { cpu0 with v := fun j => if j = 0 then 7 else 0 }

/-- C10 witness: on `cpuC10` (`V0 = 7`, `memory[0] = 0`), `F085` loads
`V0 = 0` from memory and leaves `V1 = 0`; saving with `F075` first does not
help — the subsequent `F085` still yields `V0 = 0`, not the saved `7`. -/
theorem C10_witness :
    vAfter (cpuC10.process_instruction 0 0 (0xF085 + 256 * 0)) 0 = some 0 ∧
      vAfter (cpuC10.process_instruction 0 0 (0xF085 + 256 * 0)) 1 = some 0 ∧
      vAfter ((Cpu.pcStep { cpuC10 with
          repl := fun j => if j < 0 + 1 then cpuC10.v j else cpuC10.repl j
        }).process_instruction 0 0 (0xF085 + 256 * 0)) 0 = some 0 ∧
      cpuC10.v 0 = 7 := by
  obtain ⟨h1, h2, h3, h4⟩ := C10_fx85 cpuC10 0 0 0 (by decide)
  have hc1 : cpuC10.process_instruction 0 0 (0xF075 + 256 * 0)
      = .ok (Cpu.pcStep { cpuC10 with
          repl := fun j => if j < 0 + 1 then cpuC10.v j else cpuC10.repl j }) := by
    rw [process_Fx75 cpuC10 0 0 0 (by decide)]
    rfl
  refine ⟨by rw [h1 0 (by decide)]; decide, by rw [h2 1 (by decide)]; decide, ?_,
    by decide⟩
  rw [h4 (by decide) _ hc1 0 (by decide)]
  decide

end Ch8
